import Mathlib

/-!
Shallow embedding of the `browse` module of kaput-cli (src/src/browse/{app,events}.rs):
the browser state machine (`BrowserApp`), its navigation / search / sort operations,
the key-event router (`handle_key`), and the copy-path walk (`build_path_parts`).

Machine integers: the Rust code uses `i64` ids and `usize` indices but performs no
arithmetic that can overflow (indices are bounded by list lengths, ids are only
compared), so ids are modelled as `Int` and indices as `Nat`.
-/

namespace Kaput

/-- Modelled from the spec: the `put::files::File` record (crate module `put`, not part
of the browse sources). §3 Entry: "id (stable 64-bit integer), name, kind, size in
bytes, created timestamp, modified timestamp, parent id". The browse code reads exactly
the fields below (`file_type` is the kind as an uppercase string such as "FOLDER");
timestamps are modelled as naturals, sizes as integers — only their linear order is
used (`sort_files` compares them with `cmp`). -/
structure File where
  id : Int
  name : String
  file_type : String
  size : Int
  created_at : Nat
  updated_at : Nat
  parent_id : Int
deriving DecidableEq

instance : Inhabited File := ⟨⟨0, "", "", 0, 0, 0, 0⟩⟩

/-- `SortField` from app.rs. -/
inductive SortField
  | name
  | size
  | date
  | modified
deriving DecidableEq

/-- `SortDirection` from app.rs. -/
inductive SortDirection
  | asc
  | desc
deriving DecidableEq

/-- `BreadcrumbEntry` from app.rs. -/
structure BreadcrumbEntry where
  id : Int
  name : String
  saved_index : Nat
  saved_offset : Nat
deriving DecidableEq

/-- `AppState` from app.rs. -/
inductive AppState
  | browsing
  | quitting
deriving DecidableEq

/-- `ModalState` from app.rs. -/
inductive ModalState
  | none
  | loading
  | confirmDelete (file_id : Int) (file_name : String)
  | fileActions (file_id : Int) (file_name : String) (file_type : String) (selected : Nat)
  | find (query : String)
  | searchInput (query : String)
  | error (msg : String)
  | success (msg : String)
deriving DecidableEq

/-- `FileAction` from app.rs. -/
structure FileAction where
  label : String
  key : Char
deriving DecidableEq

instance : Inhabited FileAction := ⟨⟨"", ' '⟩⟩

/-- `file_actions_for` from app.rs: the ordered list of actions for a file type,
with "Go to folder" appended when the current view is search results. -/
def file_actions_for (file_type : String) (in_search_results : Bool) : List FileAction :=
  let actions :=
    if file_type = "FOLDER" then
      [⟨"Download as zip", 'z'⟩, ⟨"Open in browser", 'b'⟩, ⟨"Copy path", 'p'⟩,
       ⟨"Copy folder ID", 'i'⟩]
    else if file_type = "VIDEO" then
      [⟨"Copy URL", 'c'⟩, ⟨"Copy Stream URL", 's'⟩, ⟨"Download", 'd'⟩,
       ⟨"Open in browser", 'b'⟩, ⟨"Copy path", 'p'⟩, ⟨"Copy file ID", 'i'⟩]
    else
      [⟨"Copy URL", 'c'⟩, ⟨"Download", 'd'⟩, ⟨"Open in browser", 'b'⟩,
       ⟨"Copy path", 'p'⟩, ⟨"Copy file ID", 'i'⟩]
  if in_search_results then actions ++ [⟨"Go to folder", 'g'⟩] else actions

/-- `PendingAction` from app.rs. -/
inductive PendingAction
  | none
  | download (file_id : Int)
  | search (query : String)
  | goToFolder (parent_id : Int) (file_id : Int)
  | delete (file_id : Int)
  | copyPath (file_name : String) (parent_id : Int)
deriving DecidableEq

/-- Three-way comparison on a linear order; embeds Rust's `Ord::cmp` on the key
types used by `sort_files` (sizes, timestamps, characters). -/
def cmpk {α : Type _} [LinearOrder α] (x y : α) : Ordering :=
  if x < y then .lt else if x = y then .eq else .gt

/-- Lexicographic comparison of character lists; embeds Rust's `String::cmp`
(UTF-8 byte order coincides with scalar-value order). -/
def cmpChars : List Char → List Char → Ordering
  | [], [] => .eq
  | [], _ :: _ => .lt
  | _ :: _, [] => .gt
  | a :: as, b :: bs => if cmpk a b = .eq then cmpChars as bs else cmpk a b

/-- Embeds Rust's `str::to_lowercase` at ASCII fidelity (`Char.toLower` lowers
only ASCII letters; the full Unicode lowering tables are not modelled). -/
def lowerData (s : String) : List Char := s.data.map Char.toLower

/-- The comparator of `sort_files` (app.rs): compare by the chosen field
(`Ordering::reverse`d — `Ordering.swap` here — when the direction is `Desc`). -/
def cmpFile (field : SortField) (dir : SortDirection) (a b : File) : Ordering :=
  let ord := match field with
    | .name => cmpChars (lowerData a.name) (lowerData b.name)
    | .size => cmpk a.size b.size
    | .date => cmpk a.created_at b.created_at
    | .modified => cmpk a.updated_at b.updated_at
  if dir = .desc then ord.swap else ord

/-- Insert `a` into `l` after every element `b` with `c a b = .gt` (i.e. before the
first element not strictly below `a`). -/
def insertByC {α : Type _} (c : α → α → Ordering) (a : α) : List α → List α
  | [] => [a]
  | b :: l => if c a b = .gt then b :: insertByC c a l else a :: b :: l

/-- Stable insertion sort by a comparator. Embeds Rust's `Vec::sort_by`, which is a
stable sort; a stable sort's output is determined by the comparator and the input
order alone, and this is the canonical stable sort. -/
def sortByC {α : Type _} (c : α → α → Ordering) : List α → List α
  | [] => []
  | a :: l => insertByC c a (sortByC c l)

/-- `sort_files` from app.rs, as a function of the snapshot. -/
def sortFilesWith (field : SortField) (dir : SortDirection) (fs : List File) : List File :=
  sortByC (cmpFile field dir) fs

/-- Replace the last element of a list (models `Vec::last_mut` update patterns;
on an empty list `last_mut` is `None` and the source does nothing). -/
def modifyLast {α : Type _} (f : α → α) : List α → List α
  | [] => []
  | [a] => [f a]
  | a :: b :: l => a :: modifyLast f (b :: l)

/-- `needle.isPrefixOf hay` on character lists. -/
def hasPre : List Char → List Char → Bool
  | [], _ => true
  | _ :: _, [] => false
  | c :: cs, d :: ds => c = d && hasPre cs ds

/-- Substring containment on character lists: embeds Rust's `str::contains`. -/
def hasSub (needle : List Char) : List Char → Bool
  | [] => needle.isEmpty
  | d :: ds => hasPre needle (d :: ds) || hasSub needle ds

/-- Case-insensitive substring test used by `find_next_with`:
`f.name.to_lowercase().contains(&query.to_lowercase())`. -/
def nameMatches (query : String) (f : File) : Bool :=
  hasSub (lowerData query) (lowerData f.name)

/-- `BrowserApp` from app.rs. `ratatui::widgets::ListState` is modelled by the
scroll `offset` alone; its selection always mirrors `selected_index` (the source
calls `list_state.select(Some(i))` at every assignment of `selected_index`). -/
structure BrowserApp where
  current_folder_id : Int
  breadcrumbs : List BreadcrumbEntry
  files : List File
  selected_index : Nat
  app_state : AppState
  modal : ModalState
  pending_action : PendingAction
  sort_field : SortField
  sort_direction : SortDirection
  offset : Nat
  restore_index : Option Nat
  restore_offset : Option Nat
  tick : Nat
  needs_reload : Bool
  spinner_label : String
  last_search : Option String
  is_search_results : Bool
  pending_select_id : Option Int
deriving DecidableEq

namespace BrowserApp

/-- The closure written inline in `enter_folder` / `enter_search_results`:
store the current cursor index and scroll offset into a breadcrumb. -/
def saveCursor (app : BrowserApp) (c : BreadcrumbEntry) : BreadcrumbEntry :=
  { c with saved_index := app.selected_index, saved_offset := app.offset }

/-- The in-place rename done by `enter_search_results` when already showing
search results: set the breadcrumb's display name to "Search: {query}". -/
def renameCrumb (query : String) (c : BreadcrumbEntry) : BreadcrumbEntry :=
  { c with name := "Search: " ++ query }

/-- `BrowserApp::new` from app.rs. -/
def new : BrowserApp where
  current_folder_id := 0
  breadcrumbs := [⟨0, "My Files", 0, 0⟩]
  files := []
  selected_index := 0
  app_state := .browsing
  modal := .loading
  pending_action := .none
  sort_field := .name
  sort_direction := .asc
  offset := 0
  restore_index := Option.none
  restore_offset := Option.none
  tick := 0
  needs_reload := true
  spinner_label := "Loading..."
  last_search := Option.none
  is_search_results := false
  pending_select_id := Option.none

/-- `BrowserApp::enter_folder`: save cursor+scroll into the top breadcrumb, push
a new breadcrumb, clear the snapshot, reset the cursor, show the loading modal. -/
def enter_folder (app : BrowserApp) (id : Int) (name : String) : BrowserApp :=
  { app with
    breadcrumbs := modifyLast (saveCursor app) app.breadcrumbs ++ [⟨id, name, 0, 0⟩]
    current_folder_id := id
    files := []
    selected_index := 0
    modal := .loading }

/-- `BrowserApp::go_back`: no-op unless the stack has more than one entry; else pop,
clear the search flag, mark the popped-to breadcrumb's saved cursor/scroll for
restoration, clear the snapshot, show the loading modal. (`breadcrumbs.last().unwrap()`
cannot fail after the pop because the length was > 1.) -/
def go_back (app : BrowserApp) : BrowserApp :=
  if app.breadcrumbs.length > 1 then
    let bc := app.breadcrumbs.dropLast
    match bc.getLast? with
    | some parent =>
      { app with
        breadcrumbs := bc
        is_search_results := false
        current_folder_id := parent.id
        restore_index := some parent.saved_index
        restore_offset := some parent.saved_offset
        files := []
        selected_index := 0
        modal := .loading }
    | Option.none => app
  else app

/-- `BrowserApp::set_files`: install and sort a fresh snapshot, then position the
cursor — at the pending-select id when one is set (scroll left to the widget),
else at the clamped restore values. -/
def set_files (app : BrowserApp) (files : List File) : BrowserApp :=
  let fs := sortFilesWith app.sort_field app.sort_direction files
  match app.pending_select_id with
  | some select_id =>
    let i := ((fs.findIdx? (fun f => f.id == select_id)).getD 0)
    { app with
      files := fs
      pending_select_id := Option.none
      selected_index := i
      restore_offset := Option.none
      modal := .none }
  | Option.none =>
    let i := min (app.restore_index.getD 0) (fs.length - 1)
    let newOffset := match app.restore_offset with
      | some off => min off (fs.length - 1)
      | Option.none => app.offset
    { app with
      files := fs
      restore_index := Option.none
      selected_index := i
      offset := newOffset
      restore_offset := Option.none
      modal := .none }

/-- `BrowserApp::enter_search_results`: replace the top breadcrumb's name in place
when already showing search results, otherwise save cursor+scroll and push the
virtual breadcrumb (id = -1); install the snapshot unsorted, reset cursor/scroll. -/
def enter_search_results (app : BrowserApp) (query : String) (files : List File) :
    BrowserApp :=
  let app :=
    if app.is_search_results then
      { app with
        breadcrumbs := modifyLast (renameCrumb query) app.breadcrumbs }
    else
      { app with
        breadcrumbs :=
          modifyLast (saveCursor app) app.breadcrumbs ++ [⟨-1, "Search: " ++ query, 0, 0⟩]
        is_search_results := true }
  { app with
    files := files
    selected_index := 0
    offset := 0
    modal := .none }

/-- `BrowserApp::reset_to_root`: truncate the stack to its first entry and zero its
saved position. The source then writes through `breadcrumbs[0]`, which panics on an
empty stack (unreachable: the stack is never empty); the embedding leaves an empty
stack empty. -/
def reset_to_root (app : BrowserApp) : BrowserApp :=
  match app.breadcrumbs with
  | [] => { app with breadcrumbs := [], is_search_results := false, current_folder_id := 0 }
  | b :: _ =>
    { app with
      breadcrumbs := [{ b with saved_index := 0, saved_offset := 0 }]
      is_search_results := false
      current_folder_id := 0 }

/-- `BrowserApp::navigate_to_folder`: reset to root, push a placeholder breadcrumb
for a non-root parent, record the file id to select after the next load. -/
def navigate_to_folder (app : BrowserApp) (parent_id : Int) (file_id : Int) : BrowserApp :=
  let app := app.reset_to_root
  let app :=
    if parent_id != 0 then
      { app with
        breadcrumbs := app.breadcrumbs ++ [⟨parent_id, "...", 0, 0⟩]
        current_folder_id := parent_id }
    else app
  { app with
    pending_select_id := some file_id
    files := []
    selected_index := 0
    modal := .loading }

/-- `BrowserApp::cycle_sort_field`. -/
def cycle_sort_field (app : BrowserApp) : BrowserApp :=
  let field := match app.sort_field with
    | .name => SortField.size
    | .size => SortField.date
    | .date => SortField.modified
    | .modified => SortField.name
  { app with
    sort_field := field
    files := sortFilesWith field app.sort_direction app.files
    selected_index := 0 }

/-- `BrowserApp::toggle_sort_direction`. -/
def toggle_sort_direction (app : BrowserApp) : BrowserApp :=
  let dir := match app.sort_direction with
    | .asc => SortDirection.desc
    | .desc => SortDirection.asc
  { app with
    sort_direction := dir
    files := sortFilesWith app.sort_field dir app.files
    selected_index := 0 }

/-- `BrowserApp::selected_file`. -/
def selected_file (app : BrowserApp) : Option File :=
  app.files[app.selected_index]?

/-- `BrowserApp::save_position_for_reload`. -/
def save_position_for_reload (app : BrowserApp) : BrowserApp :=
  { app with restore_index := some app.selected_index, restore_offset := some app.offset }

/-- `BrowserApp::move_up`. -/
def move_up (app : BrowserApp) : BrowserApp :=
  if app.selected_index > 0 then { app with selected_index := app.selected_index - 1 }
  else app

/-- `BrowserApp::move_down`. -/
def move_down (app : BrowserApp) : BrowserApp :=
  if app.files ≠ [] ∧ app.selected_index < app.files.length - 1 then
    { app with selected_index := app.selected_index + 1 }
  else app

/-- The probe loop of `find_next_with`: try offsets `offset, offset+1, ...` (`k` of
them), returning the first probed position whose entry matches the (pre-lowered)
query. -/
def probeFrom (files : List File) (q : String) (sel n : Nat) : Nat → Nat → Option Nat
  | 0, _ => Option.none
  | k + 1, offset =>
    let i := (sel + offset) % n
    if nameMatches q (files.getD i default) then some i
    else probeFrom files q sel n k (offset + 1)

/-- `BrowserApp::find_next_with`: returns the updated state and the Rust `bool`. -/
def find_next_with (app : BrowserApp) (query : String) : BrowserApp × Bool :=
  if query = "" ∨ app.files = [] then (app, false)
  else
    let n := app.files.length
    match probeFrom app.files query app.selected_index n n 1 with
    | some i => ({ app with selected_index := i }, true)
    | Option.none => (app, false)

/-- `BrowserApp::find_next`: repeat the last search. -/
def find_next (app : BrowserApp) : BrowserApp × Bool :=
  match app.last_search with
  | some query => app.find_next_with query
  | Option.none => (app, false)

/-- `BrowserApp::move_page_up`. -/
def move_page_up (app : BrowserApp) : BrowserApp :=
  { app with selected_index := app.selected_index - 10 }

/-- `BrowserApp::move_page_down`. -/
def move_page_down (app : BrowserApp) : BrowserApp :=
  if app.files ≠ [] then
    { app with selected_index := min (app.selected_index + 10) (app.files.length - 1) }
  else app

end BrowserApp

/-- The `crossterm` key codes matched by events.rs (`other` stands for every code the
source routes to its `_ => {}` arms). -/
inductive KeyCode
  | char (c : Char)
  | enter
  | esc
  | backspace
  | up
  | down
  | left
  | other
deriving DecidableEq

/-- A key event: code plus whether the modifier set is exactly CONTROL (the only
modifier events.rs inspects, via `==` and `contains`). -/
structure KeyEvent where
  code : KeyCode
  ctrl : Bool
deriving DecidableEq

/-- Outcome of `arboard::Clipboard::new()` / `set_text` in `copy_to_clipboard`. -/
inductive ClipRes
  | ok
  | unavailable (e : String)
  | setFailed (e : String)
deriving DecidableEq

/-- Outcomes of the external collaborators touched synchronously by the input
handler: the remote `put::files::url` call, the clipboard, and the OS browser
spawn (spec §1 treats these as external). -/
structure Ext where
  urlRes : Except String String
  clip : ClipRes
  browser : Except String Unit

/-- `copy_to_clipboard` from events.rs. -/
def copy_to_clipboard (ext : Ext) (app : BrowserApp) (_text : String)
    (success_msg : String) : BrowserApp :=
  match ext.clip with
  | .ok => { app with modal := .success success_msg }
  | .unavailable e => { app with modal := .error ("Clipboard unavailable: " ++ e) }
  | .setFailed e => { app with modal := .error ("Clipboard error: " ++ e) }

/-- `open_in_browser` from events.rs (the spawn outcome comes from `ext`). -/
def open_in_browser (ext : Ext) (app : BrowserApp) (_url : String) : BrowserApp :=
  match ext.browser with
  | .ok _ => { app with modal := .success "Opening in browser..." }
  | .error e => { app with modal := .error ("Could not open browser: " ++ e) }

/-- `execute_file_action` from events.rs, with the external outcomes supplied by
`ext` and the api token by `token`. -/
def execute_file_action (ext : Ext) (token : String) (app : BrowserApp)
    (action : String) (file_id : Int) (_file_type : String) : BrowserApp :=
  if action = "Copy URL" then
    match ext.urlRes with
    | .ok url => copy_to_clipboard ext app url "URL copied!"
    | .error e => { app with modal := .error ("Failed to get URL: " ++ e) }
  else if action = "Copy Stream URL" then
    copy_to_clipboard ext app
      ("https://api.put.io/v2/files/" ++ toString file_id ++ "/stream?oauth_token=" ++ token)
      "Stream URL copied!"
  else if action = "Download" then
    { app with pending_action := .download file_id }
  else if action = "Open in browser" then
    open_in_browser ext app ("https://app.put.io/files/" ++ toString file_id)
  else if action = "Copy file ID" then
    copy_to_clipboard ext app (toString file_id) "File ID copied!"
  else if action = "Copy path" then
    match app.files.find? (fun f => f.id == file_id) with
    | some file =>
      { app with
        pending_action := .copyPath file.name file.parent_id
        spinner_label := "Copying path..."
        modal := .loading }
    | Option.none => { app with modal := .error "File not found for path lookup." }
  else if action = "Download as zip" then
    { app with pending_action := .download file_id }
  else if action = "Copy folder ID" then
    copy_to_clipboard ext app (toString file_id) "Folder ID copied!"
  else if action = "Go to folder" then
    let parent_id := ((app.files.find? (fun f => f.id == file_id)).map File.parent_id).getD 0
    { app with pending_action := .goToFolder parent_id file_id }
  else app

/-- The `ModalState::None` branch of `handle_key` (the Rust `match key.code` arms,
in source order; guard failures fall through to `_ => {}`). -/
def handle_key_browsing (app : BrowserApp) (key : KeyEvent) : BrowserApp :=
  match key.code with
  | .esc =>
    if app.breadcrumbs.length > 1 then { app.go_back with needs_reload := true }
    else { app with app_state := .quitting }
  | .up => app.move_up
  | .down => app.move_down
  | .enter =>
    match app.selected_file with
    | some file =>
      if file.file_type = "FOLDER" then
        { app.enter_folder file.id file.name with needs_reload := true }
      else
        { app with modal := .fileActions file.id file.name file.file_type 0 }
    | Option.none => app
  | .left => { app.go_back with needs_reload := true }
  | .backspace => { app.go_back with needs_reload := true }
  | .char c =>
    if c = 'q' then { app with app_state := .quitting }
    else if c = 'k' then app.move_up
    else if c = 'j' then app.move_down
    else if c = 'u' ∧ key.ctrl then app.move_page_up
    else if c = 'd' ∧ key.ctrl then app.move_page_down
    else if c = 'o' ∧ key.ctrl then
      match app.selected_file with
      | some file => { app with modal := .fileActions file.id file.name file.file_type 0 }
      | Option.none => app
    else if c = '/' then { app with modal := .find "" }
    else if c = 'f' ∧ key.ctrl then { app with modal := .searchInput "" }
    else if c = 'n' then (app.find_next).1
    else if c = 's' then app.cycle_sort_field
    else if c = 'r' then app.toggle_sort_direction
    else if c = 'x' then
      match app.selected_file with
      | some file => { app with modal := .confirmDelete file.id file.name }
      | Option.none => app
    else app
  | .other => app

/-- `handle_key` from events.rs. -/
def handle_key (ext : Ext) (token : String) (app : BrowserApp) (key : KeyEvent) :
    BrowserApp :=
  if key.ctrl ∧ key.code = .char 'c' then { app with app_state := .quitting }
  else
    match app.modal with
    | .loading => app
    | .error _ => { app with modal := .none }
    | .success _ => { app with modal := .none }
    | .confirmDelete file_id _ =>
      match key.code with
      | .char c =>
        if c = 'y' ∨ c = 'Y' then
          { app.save_position_for_reload with
            pending_action := .delete file_id
            spinner_label := "Deleting..."
            modal := .loading }
        else if c = 'n' ∨ c = 'N' then { app with modal := .none }
        else app
      | .esc => { app with modal := .none }
      | _ => app
    | .fileActions file_id file_name file_type selected =>
      let actions := file_actions_for file_type app.is_search_results
      let n := actions.length
      let upSel := if selected = 0 then n - 1 else selected - 1
      match key.code with
      | .up =>
        { app with modal := .fileActions file_id file_name file_type upSel }
      | .enter =>
        let label := (actions.getD selected default).label
        execute_file_action ext token { app with modal := .none } label file_id file_type
      | .esc => { app with modal := .none }
      | .down =>
        { app with modal := .fileActions file_id file_name file_type ((selected + 1) % n) }
      | .char c =>
        if c = 'k' then
          { app with modal := .fileActions file_id file_name file_type upSel }
        else if c = 'j' then
          { app with modal := .fileActions file_id file_name file_type ((selected + 1) % n) }
        else
          match actions.find? (fun a => a.key == c) with
          | some action =>
            execute_file_action ext token { app with modal := .none } action.label file_id
              file_type
          | Option.none => app
      | _ => app
    | .searchInput query =>
      match key.code with
      | .esc => { app with modal := .none }
      | .enter =>
        if query ≠ "" then
          { app with
            pending_action := .search query
            spinner_label := "Searching..."
            modal := .loading }
        else { app with modal := .none }
      | .backspace => { app with modal := .searchInput ⟨query.data.dropLast⟩ }
      | .char c =>
        if ¬ key.ctrl then { app with modal := .searchInput (query ++ c.toString) }
        else app
      | _ => app
    | .find query =>
      match key.code with
      | .esc => { app with modal := .none }
      | .enter =>
        let app := { app with modal := .none }
        if query ≠ "" then
          (({ app with last_search := some query }).find_next_with query).1
        else app
      | .backspace => { app with modal := .find ⟨query.data.dropLast⟩ }
      | .char c =>
        if ¬ key.ctrl then { app with modal := .find (query ++ c.toString) }
        else app
      | _ => app
    | .none => handle_key_browsing app key

/-- The `PendingAction::GoToFolder` arm of the drive loop (mod.rs):
`navigate_to_folder` followed by scheduling a reload. -/
def drain_go_to_folder (app : BrowserApp) (parent_id file_id : Int) : BrowserApp :=
  { app.navigate_to_folder parent_id file_id with needs_reload := true }

/-- The parent metadata (`response.parent`) of a `put::files::list` response, as
consumed by `build_path_parts`. -/
structure Folder where
  name : String
  parent_id : Int
deriving DecidableEq

/-- The `while parent_id != 0` loop of `build_path_parts`, with the remote
responses supplied by `env`. The source counts `depth` up from 0 and errors when
`depth > 256`; `gas` here is the remaining allowance `256 - depth`, so iterations
run while `gas > 0` and the 257th attempt errors — the same behaviour. The source
pushes each name and reverses at the end; this recursion conses, so it returns the
walk-order (nearest-ancestor-first) list that the source holds before reversing. -/
def bpGo (env : Int → Except String Folder) : Nat → Int → Except String (List String)
  | gas, parent_id =>
    if parent_id = 0 then .ok []
    else
      match gas with
      | 0 => .error "Path lookup failed: path too deep."
      | g + 1 =>
        match env parent_id with
        | .error e => .error ("Path lookup failed: " ++ e)
        | .ok folder =>
          if folder.name = "" then .error "Path lookup failed: missing folder name."
          else if folder.parent_id = parent_id then
            .error "Path lookup failed: parent loop detected."
          else
            match bpGo env g folder.parent_id with
            | .ok rest => .ok (folder.name :: rest)
            | .error e => .error e

/-- `build_path_parts` from events.rs. -/
def build_path_parts (env : Int → Except String Folder) (parent_id : Int) :
    Except String (List String) :=
  if parent_id < 0 then .error "Path lookup failed: invalid parent id."
  else
    match bpGo env 256 parent_id with
    | .ok parts => .ok parts.reverse
    | .error e => .error e

/-- Swapped comparator: the comparator `sort_files` uses for the opposite
direction (`Ordering::reverse`). -/
def swapC {α : Type _} (c : α → α → Ordering) : α → α → Ordering :=
  fun a b => (c a b).swap

/-- Sortedness with respect to a comparator (no adjacent-out-of-order pair,
extended to all pairs): what `sort_files` establishes. -/
def SortedC {α : Type _} (c : α → α → Ordering) (l : List α) : Prop :=
  List.Pairwise (fun x y => c x y ≠ .gt) l

/-- The navigation-stack invariant (spec §8): the breadcrumb list is non-empty and
its first entry is the root (id 0). -/
def NavInv (app : BrowserApp) : Prop :=
  app.breadcrumbs.head?.map BreadcrumbEntry.id = some 0

/-- The `FileActions` modal invariant: the selected index is within the action
list computed for the file's type and the current search flag. -/
def InvFA (app : BrowserApp) : Prop :=
  ∀ fid fname ftype sel, app.modal = .fileActions fid fname ftype sel →
    sel < (file_actions_for ftype app.is_search_results).length

/-- One parent-resolution step of the copy-path walk: the parent id reported by a
successful `list` response, or `none` on a failed call. -/
def pstep (env : Int → Except String Folder) (pid : Int) : Option Int :=
  match env pid with
  | .ok f => some f.parent_id
  | .error _ => Option.none

/-- The parent-id chain above `start` induced by the responses `env`. -/
def chain (env : Int → Except String Folder) (start : Int) : Nat → Option Int
  | 0 => some start
  | i + 1 => (chain env start i).bind (pstep env)

/-- The folder name fetched at step `i` of the chain (junk off the chain). -/
def chainName (env : Int → Except String Folder) (start : Int) (i : Nat) : String :=
  match chain env start i with
  | some pid =>
    match env pid with
    | .ok f => f.name
    | .error _ => ""
  | Option.none => ""

/-- Step `i` of the chain is clean: on the chain, not yet at the root, the `list`
call succeeds, the folder has a name, and it is not its own parent. -/
def CleanAt (env : Int → Except String Folder) (start : Int) (i : Nat) : Prop :=
  ∃ pid f, chain env start i = some pid ∧ pid ≠ 0 ∧ env pid = .ok f ∧
    f.name ≠ "" ∧ f.parent_id ≠ pid

/-! ## Concrete fixtures for counterexamples and witnesses -/

/-- A sample video entry with the given id, name and size. -/
def exFile (id : Int) (name : String) (size : Int) : File :=
  ⟨id, name, "VIDEO", size, 0, 0, 0⟩

/-- A browsing state whose snapshot is NOT sorted by the current sort key
(size, ascending): sizes appear as [2, 1]. -/
def c6App : BrowserApp :=
  { BrowserApp.new with
    files := [exFile 1 "b" 2, exFile 2 "a" 1]
    sort_field := .size
    modal := .none }

/-- A browsing state whose snapshot IS sorted by the current sort key
(size, ascending). -/
def c6SortedApp : BrowserApp :=
  { BrowserApp.new with
    files := [exFile 2 "a" 1, exFile 1 "b" 2]
    sort_field := .size
    modal := .none }

/-- C1 fixture: a root-level state with 5 entries, cursor at index 2, scroll 1. -/
def c1App : BrowserApp :=
  { BrowserApp.new with
    modal := .none
    files := [exFile 1 "a" 1, exFile 2 "b" 2, exFile 3 "c" 3, exFile 4 "d" 4, exFile 5 "e" 5]
    selected_index := 2
    offset := 1 }

/-- C2 fixture: three entries, one of which ("aab") contains "ab". -/
def c2App : BrowserApp :=
  { BrowserApp.new with
    modal := .none
    files := [exFile 1 "x" 1, exFile 2 "aab" 2, exFile 3 "y" 3] }

/-- Benign outcomes for the external collaborators (URL fetch, clipboard, browser). -/
def exExt : Ext := ⟨.ok "https://example", .ok, .ok ()⟩

/-- C3 fixture: Find modal confirmed with query "zz", which matches no entry;
an earlier find for "abc" had succeeded. -/
def c3App : BrowserApp :=
  { BrowserApp.new with
    modal := .find "zz"
    files := [exFile 1 "abc" 1]
    last_search := some "abc" }

/-- C4 fixture: already showing search results (virtual breadcrumb on top). -/
def c4SearchApp : BrowserApp :=
  { BrowserApp.new with
    modal := .none
    is_search_results := true
    breadcrumbs := [⟨0, "My Files", 0, 0⟩, ⟨-1, "Search: foo", 0, 0⟩] }

/-- C7 fixture: ConfirmDelete modal open for file 42. -/
def c7App : BrowserApp :=
  { BrowserApp.new with
    modal := .confirmDelete 42 "doomed"
    files := [exFile 42 "doomed" 7]
    selected_index := 0
    offset := 0 }

/-- C10 fixture: a search-results view whose snapshot does not contain file 99. -/
def c10App : BrowserApp :=
  { BrowserApp.new with
    modal := .none
    is_search_results := true
    files := [exFile 1 "a" 1] }

/-- C9 fixture: FileActions modal open on a video file, selection at 0. -/
def c9App : BrowserApp :=
  { BrowserApp.new with
    modal := .fileActions 1 "vid" "VIDEO" 0
    files := [exFile 1 "vid" 1] }

/-- C8 fixture: a remote store whose every `list` call fails. -/
def c8EnvFail : Int → Except String Folder := fun _ => .error "boom"

/-- C8 fixture: folder 5 ("docs") sits inside folder 2 ("media") at the root. -/
def c8Env : Int → Except String Folder := fun pid =>
  if pid = 5 then .ok ⟨"docs", 2⟩
  else if pid = 2 then .ok ⟨"media", 0⟩
  else .error "missing"

/-! ## Comparator laws -/

/-- The laws `sort_files`' comparators satisfy: `swap` antisymmetry and
transitivity of the strict, non-strict and equal relations. -/
structure CmpLaws {α : Type _} (c : α → α → Ordering) : Prop where
  swap_eq : ∀ a b, (c a b).swap = c b a
  le_trans : ∀ a b d, c a b ≠ .gt → c b d ≠ .gt → c a d ≠ .gt
  lt_trans : ∀ a b d, c a b = .lt → c b d = .lt → c a d = .lt
  eq_trans : ∀ a b d, c a b = .eq → c b d = .eq → c a d = .eq

theorem ordering_swap_swap (o : Ordering) : o.swap.swap = o := by
  cases o <;> rfl

theorem CmpLaws.gt_iff_lt {α : Type _} {c : α → α → Ordering} (h : CmpLaws c)
    (a b : α) : c a b = .gt ↔ c b a = .lt := by
  constructor
  · intro hab
    have hs := h.swap_eq a b
    rw [hab] at hs
    exact hs.symm
  · intro hba
    have hs := h.swap_eq b a
    rw [hba] at hs
    exact hs.symm

theorem CmpLaws.eq_symm {α : Type _} {c : α → α → Ordering} (h : CmpLaws c)
    {a b : α} (hab : c a b = .eq) : c b a = .eq := by
  have hs := h.swap_eq a b
  rw [hab] at hs
  exact hs.symm

theorem CmpLaws.lt_of_gt {α : Type _} {c : α → α → Ordering} (h : CmpLaws c)
    {a b : α} (hab : c a b = .gt) : c b a = .lt := (h.gt_iff_lt a b).mp hab

theorem CmpLaws.not_gt_of_gt {α : Type _} {c : α → α → Ordering} (h : CmpLaws c)
    {a b : α} (hab : c a b = .gt) : c b a ≠ .gt := by
  rw [h.lt_of_gt hab]
  decide

theorem cmpk_swap {α : Type _} [LinearOrder α] (x y : α) :
    (cmpk x y).swap = cmpk y x := by
  unfold cmpk
  rcases lt_trichotomy x y with h | h | h
  · rw [if_pos h, if_neg (asymm h), if_neg (ne_of_gt h)]
    rfl
  · subst h
    rw [if_neg (lt_irrefl x), if_pos rfl]
    rfl
  · rw [if_neg (asymm h), if_neg (ne_of_gt h), if_pos h]
    rfl

theorem cmpk_eq_lt_iff {α : Type _} [LinearOrder α] (x y : α) :
    cmpk x y = .lt ↔ x < y := by
  unfold cmpk
  split_ifs with h1 h2
  · exact ⟨fun _ => h1, fun _ => rfl⟩
  · exact ⟨fun hc => absurd hc (by decide), fun hlt => absurd hlt h1⟩
  · exact ⟨fun hc => absurd hc (by decide), fun hlt => absurd hlt h1⟩

theorem cmpk_eq_eq_iff {α : Type _} [LinearOrder α] (x y : α) :
    cmpk x y = .eq ↔ x = y := by
  unfold cmpk
  split_ifs with h1 h2
  · exact ⟨fun hc => absurd hc (by decide), fun heq => absurd heq (ne_of_lt h1)⟩
  · exact ⟨fun _ => h2, fun _ => rfl⟩
  · exact ⟨fun hc => absurd hc (by decide), fun heq => absurd heq h2⟩

theorem cmpk_ne_gt_iff {α : Type _} [LinearOrder α] (x y : α) :
    cmpk x y ≠ .gt ↔ x ≤ y := by
  unfold cmpk
  split_ifs with h1 h2
  · exact ⟨fun _ => le_of_lt h1, fun _ => by decide⟩
  · exact ⟨fun _ => le_of_eq h2, fun _ => by decide⟩
  · have hyx : y < x := lt_of_le_of_ne (le_of_not_lt h1) (Ne.symm h2)
    exact ⟨fun hc => absurd rfl hc, fun hle => absurd hle (not_le_of_lt hyx)⟩

theorem ordering_ne_gt_iff (o : Ordering) : o ≠ .gt ↔ o = .lt ∨ o = .eq := by
  cases o <;> decide

theorem ordering_swap_eq_gt_iff (o : Ordering) : o.swap = .gt ↔ o = .lt := by
  cases o <;> decide

theorem ordering_swap_eq_lt_iff (o : Ordering) : o.swap = .lt ↔ o = .gt := by
  cases o <;> decide

theorem ordering_swap_eq_eq_iff (o : Ordering) : o.swap = .eq ↔ o = .eq := by
  cases o <;> decide

theorem cmpk_laws {α : Type _} [LinearOrder α] : CmpLaws (cmpk (α := α)) where
  swap_eq := cmpk_swap
  le_trans := by
    intro a b d hab hbd
    rw [cmpk_ne_gt_iff] at hab hbd ⊢
    exact le_trans hab hbd
  lt_trans := by
    intro a b d hab hbd
    rw [cmpk_eq_lt_iff] at hab hbd ⊢
    exact lt_trans hab hbd
  eq_trans := by
    intro a b d hab hbd
    rw [cmpk_eq_eq_iff] at hab hbd ⊢
    exact hab.trans hbd

theorem ordering_swap_lt : Ordering.lt.swap = .gt := rfl

theorem ordering_swap_gt : Ordering.gt.swap = .lt := rfl

theorem ordering_swap_eq : Ordering.eq.swap = .eq := rfl

theorem cmpChars_swap (x y : List Char) : (cmpChars x y).swap = cmpChars y x := by
  induction x generalizing y with
  | nil => cases y <;> rfl
  | cons a as ih =>
    cases y with
    | nil => rfl
    | cons b bs =>
      cases h : cmpk a b with
      | lt =>
        have hba : cmpk b a = .gt := by rw [← cmpk_swap a b, h]; rfl
        simp [cmpChars, h, hba, ordering_swap_lt]
      | eq =>
        have hba : cmpk b a = .eq := by rw [← cmpk_swap a b, h]; rfl
        simp [cmpChars, h, hba, ih bs]
      | gt =>
        have hba : cmpk b a = .lt := by rw [← cmpk_swap a b, h]; rfl
        simp [cmpChars, h, hba, ordering_swap_gt]

theorem cmpChars_eq_eq_iff (x y : List Char) : cmpChars x y = .eq ↔ x = y := by
  induction x generalizing y with
  | nil => cases y <;> simp [cmpChars]
  | cons a as ih =>
    cases y with
    | nil => simp [cmpChars]
    | cons b bs =>
      cases h : cmpk a b with
      | lt =>
        have hne : a ≠ b := fun he => by
          rw [(cmpk_eq_eq_iff a b).mpr he] at h
          exact Ordering.noConfusion h
        simp [cmpChars, h, hne]
      | eq =>
        have he : a = b := (cmpk_eq_eq_iff a b).mp h
        subst he
        simp [cmpChars, h, ih bs]
      | gt =>
        have hne : a ≠ b := fun he => by
          rw [(cmpk_eq_eq_iff a b).mpr he] at h
          exact Ordering.noConfusion h
        simp [cmpChars, h, hne]

theorem cmpChars_lt_trans (x y z : List Char) (hxy : cmpChars x y = .lt)
    (hyz : cmpChars y z = .lt) : cmpChars x z = .lt := by
  induction x generalizing y z with
  | nil =>
    cases y with
    | nil => exact absurd hxy (by simp [cmpChars])
    | cons b bs =>
      cases z with
      | nil => exact absurd hyz (by simp [cmpChars])
      | cons d ds => simp [cmpChars]
  | cons a as ih =>
    cases y with
    | nil => exact absurd hxy (by simp [cmpChars])
    | cons b bs =>
      cases z with
      | nil => exact absurd hyz (by simp [cmpChars])
      | cons d ds =>
        cases hab : cmpk a b with
        | gt => simp [cmpChars, hab] at hxy
        | lt =>
          cases hbd : cmpk b d with
          | gt => simp [cmpChars, hbd] at hyz
          | lt =>
            have had : cmpk a d = .lt := cmpk_laws.lt_trans a b d hab hbd
            simp [cmpChars, had]
          | eq =>
            have he : b = d := (cmpk_eq_eq_iff b d).mp hbd
            subst he
            simp [cmpChars, hab]
        | eq =>
          have he : a = b := (cmpk_eq_eq_iff a b).mp hab
          subst he
          simp [cmpChars, hab] at hxy
          cases had : cmpk a d with
          | gt => simp [cmpChars, had] at hyz
          | lt => simp [cmpChars, had]
          | eq =>
            simp [cmpChars, had] at hyz
            simp [cmpChars, had]
            exact ih bs ds hxy hyz

theorem cmpChars_laws : CmpLaws cmpChars where
  swap_eq := cmpChars_swap
  lt_trans := cmpChars_lt_trans
  eq_trans := by
    intro a b d h1 h2
    rw [cmpChars_eq_eq_iff] at h1 h2 ⊢
    exact h1.trans h2
  le_trans := by
    intro a b d h1 h2
    rw [ordering_ne_gt_iff] at h1 h2 ⊢
    rcases h1 with h1 | h1
    · rcases h2 with h2 | h2
      · exact Or.inl (cmpChars_lt_trans a b d h1 h2)
      · rw [cmpChars_eq_eq_iff] at h2
        subst h2
        exact Or.inl h1
    · rw [cmpChars_eq_eq_iff] at h1
      subst h1
      rcases h2 with h2 | h2
      · exact Or.inl h2
      · exact Or.inr h2

theorem CmpLaws.comap {α β : Type _} {c : α → α → Ordering} (h : CmpLaws c)
    (k : β → α) : CmpLaws (fun x y => c (k x) (k y)) where
  swap_eq := fun a b => h.swap_eq (k a) (k b)
  le_trans := fun a b d => h.le_trans (k a) (k b) (k d)
  lt_trans := fun a b d => h.lt_trans (k a) (k b) (k d)
  eq_trans := fun a b d => h.eq_trans (k a) (k b) (k d)

theorem CmpLaws.swapC {α : Type _} {c : α → α → Ordering} (h : CmpLaws c) :
    CmpLaws (Kaput.swapC c) where
  swap_eq := by
    intro a b
    show ((c a b).swap).swap = (c b a).swap
    rw [ordering_swap_swap, h.swap_eq b a]
  le_trans := by
    intro a b d ha hb hg
    have ha' : c b a ≠ .gt := fun hgt => ha (by
      show (c a b).swap = .gt
      rw [h.lt_of_gt hgt]
      rfl)
    have hb' : c d b ≠ .gt := fun hgt => hb (by
      show (c b d).swap = .gt
      rw [h.lt_of_gt hgt]
      rfl)
    have hda : c d a ≠ .gt := h.le_trans d b a hb' ha'
    have : c a d = .lt := (ordering_swap_eq_gt_iff _).mp hg
    exact hda ((h.gt_iff_lt d a).mpr this)
  lt_trans := by
    intro a b d ha hb
    have ha' : c b a = .lt := h.lt_of_gt ((ordering_swap_eq_lt_iff _).mp ha)
    have hb' : c d b = .lt := h.lt_of_gt ((ordering_swap_eq_lt_iff _).mp hb)
    have : c d a = .lt := h.lt_trans d b a hb' ha'
    show (c a d).swap = .lt
    rw [ordering_swap_eq_lt_iff]
    exact (h.gt_iff_lt a d).mpr this
  eq_trans := by
    intro a b d ha hb
    have ha' : c a b = .eq := (ordering_swap_eq_eq_iff _).mp ha
    have hb' : c b d = .eq := (ordering_swap_eq_eq_iff _).mp hb
    show (c a d).swap = .eq
    rw [ordering_swap_eq_eq_iff]
    exact h.eq_trans a b d ha' hb'

theorem cmpFile_desc_eq (f : SortField) :
    cmpFile f .desc = swapC (cmpFile f .asc) := rfl

theorem cmpFile_asc_eq (f : SortField) :
    cmpFile f .asc = swapC (cmpFile f .desc) := by
  funext a b
  show cmpFile f .asc a b = (cmpFile f .desc a b).swap
  rw [cmpFile_desc_eq]
  show cmpFile f .asc a b = ((cmpFile f .asc a b).swap).swap
  rw [ordering_swap_swap]

theorem cmpFile_laws (field : SortField) (dir : SortDirection) :
    CmpLaws (cmpFile field dir) := by
  have hasc : CmpLaws (cmpFile field .asc) := by
    cases field
    · exact cmpChars_laws.comap (fun f : File => lowerData f.name)
    · exact cmpk_laws.comap File.size
    · exact cmpk_laws.comap File.created_at
    · exact cmpk_laws.comap File.updated_at
  cases dir
  · exact hasc
  · rw [cmpFile_desc_eq]
    exact hasc.swapC

/-! ## Stable insertion sort -/

theorem insertByC_perm {α : Type _} (c : α → α → Ordering) (a : α) (l : List α) :
    (insertByC c a l).Perm (a :: l) := by
  induction l with
  | nil => exact List.Perm.refl _
  | cons b m ih =>
    by_cases h : c a b = .gt
    · rw [insertByC, if_pos h]
      exact (ih.cons b).trans (List.Perm.swap a b m)
    · rw [insertByC, if_neg h]

theorem sortByC_perm {α : Type _} (c : α → α → Ordering) (l : List α) :
    (sortByC c l).Perm l := by
  induction l with
  | nil => exact List.Perm.refl _
  | cons a m ih =>
    rw [sortByC]
    exact (insertByC_perm c a (sortByC c m)).trans (ih.cons a)

theorem mem_insertByC {α : Type _} {c : α → α → Ordering} {a x : α} {l : List α} :
    x ∈ insertByC c a l ↔ x = a ∨ x ∈ l := by
  rw [(insertByC_perm c a l).mem_iff, List.mem_cons]

theorem insertByC_sorted {α : Type _} {c : α → α → Ordering} (hc : CmpLaws c)
    (a : α) {l : List α} (hl : SortedC c l) : SortedC c (insertByC c a l) := by
  induction l with
  | nil => exact List.pairwise_singleton _ _
  | cons b m ih =>
    rcases List.pairwise_cons.mp hl with ⟨hb, hm⟩
    by_cases h : c a b = .gt
    · rw [insertByC, if_pos h]
      refine List.pairwise_cons.mpr ⟨?_, ih hm⟩
      intro x hx
      rcases mem_insertByC.mp hx with hx | hx
      · subst hx
        exact hc.not_gt_of_gt h
      · exact hb x hx
    · rw [insertByC, if_neg h]
      refine List.pairwise_cons.mpr ⟨?_, hl⟩
      intro x hx
      rcases List.mem_cons.mp hx with hx | hx
      · subst hx
        exact h
      · exact hc.le_trans a b x h (hb x hx)

theorem sortByC_sorted {α : Type _} {c : α → α → Ordering} (hc : CmpLaws c)
    (l : List α) : SortedC c (sortByC c l) := by
  induction l with
  | nil => exact List.Pairwise.nil
  | cons a m ih =>
    rw [sortByC]
    exact insertByC_sorted hc a ih

theorem sortByC_eq_of_sorted {α : Type _} {c : α → α → Ordering}
    {l : List α} (hl : SortedC c l) : sortByC c l = l := by
  induction l with
  | nil => rfl
  | cons a m ih =>
    rcases List.pairwise_cons.mp hl with ⟨ha, hm⟩
    rw [sortByC, ih hm]
    cases m with
    | nil => rfl
    | cons b m' =>
      rw [insertByC, if_neg (ha b (List.mem_cons_self b m'))]

theorem filter_insertByC_of_eq {α : Type _} {c : α → α → Ordering} (hc : CmpLaws c)
    {r a : α} (ha : c a r = .eq) (m : List α) :
    (insertByC c a m).filter (fun x => decide (c x r = .eq)) =
      a :: m.filter (fun x => decide (c x r = .eq)) := by
  induction m with
  | nil =>
    rw [insertByC]
    simp [ha]
  | cons b m' ih =>
    by_cases h : c a b = .gt
    · have hbr : c b r ≠ .eq := by
        intro hbr
        have : c a b = .eq := hc.eq_trans a r b ha (hc.eq_symm hbr)
        rw [h] at this
        exact Ordering.noConfusion this
      rw [insertByC, if_pos h]
      rw [List.filter_cons_of_neg (by simpa using hbr), ih,
        List.filter_cons_of_neg (by simpa using hbr)]
    · rw [insertByC, if_neg h]
      rw [List.filter_cons_of_pos (by simpa using ha)]

theorem filter_insertByC_of_ne {α : Type _} {c : α → α → Ordering}
    {r a : α} (ha : c a r ≠ .eq) (m : List α) :
    (insertByC c a m).filter (fun x => decide (c x r = .eq)) =
      m.filter (fun x => decide (c x r = .eq)) := by
  induction m with
  | nil =>
    rw [insertByC]
    simp [ha]
  | cons b m' ih =>
    by_cases h : c a b = .gt
    · rw [insertByC, if_pos h]
      by_cases hb : c b r = .eq
      · rw [List.filter_cons_of_pos (by simpa using hb), ih,
          List.filter_cons_of_pos (by simpa using hb)]
      · rw [List.filter_cons_of_neg (by simpa using hb), ih,
          List.filter_cons_of_neg (by simpa using hb)]
    · rw [insertByC, if_neg h]
      rw [List.filter_cons_of_neg (by simpa using ha)]

theorem sortByC_filter_eqclass {α : Type _} {c : α → α → Ordering} (hc : CmpLaws c)
    (r : α) (l : List α) :
    (sortByC c l).filter (fun x => decide (c x r = .eq)) =
      l.filter (fun x => decide (c x r = .eq)) := by
  induction l with
  | nil => rfl
  | cons a m ih =>
    rw [sortByC]
    by_cases ha : c a r = .eq
    · rw [filter_insertByC_of_eq hc ha, ih, List.filter_cons_of_pos (by simpa using ha)]
    · rw [filter_insertByC_of_ne ha, ih, List.filter_cons_of_neg (by simpa using ha)]

theorem insertByC_comm {α : Type _} {c : α → α → Ordering} (hc : CmpLaws c)
    {a b : α} (hab : c a b = .lt) (l : List α) :
    insertByC c b (insertByC c a l) = insertByC c a (insertByC c b l) := by
  have hba : c b a = .gt := (hc.gt_iff_lt b a).mpr hab
  have habng : c a b ≠ .gt := by rw [hab]; decide
  induction l with
  | nil => simp [insertByC, hba, habng]
  | cons x m ih =>
    by_cases hax : c a x = .gt
    · have hbx : c b x = .gt := by
        have hxa : c x a = .lt := hc.lt_of_gt hax
        have hxb : c x b = .lt := hc.lt_trans x a b hxa hab
        exact (hc.gt_iff_lt b x).mpr hxb
      simp [insertByC, hax, hbx, ih]
    · by_cases hbx : c b x = .gt
      · simp [insertByC, hax, hbx, hba]
      · simp [insertByC, hax, hbx, hba, habng]

theorem sortByC_insertByC_swapC {α : Type _} {c : α → α → Ordering} (hc : CmpLaws c)
    (a : α) (l : List α) :
    sortByC c (insertByC (swapC c) a l) = insertByC c a (sortByC c l) := by
  induction l with
  | nil => rfl
  | cons b m ih =>
    by_cases hab : c a b = .lt
    · have hsw : swapC c a b = .gt := by
        show (c a b).swap = .gt
        rw [hab]
        rfl
      rw [insertByC, if_pos hsw, sortByC, ih, sortByC,
        insertByC_comm hc hab (sortByC c m)]
    · have hsw : swapC c a b ≠ .gt :=
        fun hg => hab ((ordering_swap_eq_gt_iff (c a b)).mp hg)
      rw [insertByC, if_neg hsw]
      rfl

theorem sortByC_sortByC_swapC {α : Type _} {c : α → α → Ordering} (hc : CmpLaws c)
    (l : List α) : sortByC c (sortByC (swapC c) l) = sortByC c l := by
  induction l with
  | nil => rfl
  | cons a m ih =>
    rw [sortByC, sortByC_insertByC_swapC hc, ih, sortByC]

theorem sortByC_swapC_roundtrip {α : Type _} {c : α → α → Ordering} (hc : CmpLaws c)
    {l : List α} (hl : SortedC c l) :
    sortByC c (sortByC (swapC c) l) = l :=
  (sortByC_sortByC_swapC hc l).trans (sortByC_eq_of_sorted hl)

/-! ## Claim C6 -/

/-- C6, counterexample to the claim as stated: for the entry list of `c6App`
(sizes [2, 1], not sorted by the current key), applying `toggle_sort_direction`
twice does NOT return the entries to their previous order — it stably sorts them. -/
theorem claim_c6_counterexample :
    c6App.toggle_sort_direction.toggle_sort_direction.files ≠ c6App.files := by
  decide

/-- C6 (amended): the sort over the entry snapshot is a total, stable order —
`sort_files` produces a permutation of its input, sorted under the field/direction
comparator, in which every comparator-equality class keeps its original relative
order — and, provided the snapshot is already sorted by the current field and
direction (as it is after any `sort_files`), applying `toggle_sort_direction`
twice returns the entries, the direction and the field to their previous values. -/
theorem claim_c6_sort_stable_and_toggle (app : BrowserApp)
    (h : SortedC (cmpFile app.sort_field app.sort_direction) app.files) :
    (∀ (field : SortField) (dir : SortDirection) (fs : List File),
        (sortFilesWith field dir fs).Perm fs
        ∧ SortedC (cmpFile field dir) (sortFilesWith field dir fs)
        ∧ ∀ r : File,
            (sortFilesWith field dir fs).filter
                (fun x => decide (cmpFile field dir x r = .eq))
              = fs.filter (fun x => decide (cmpFile field dir x r = .eq)))
    ∧ app.toggle_sort_direction.toggle_sort_direction.files = app.files
    ∧ app.toggle_sort_direction.toggle_sort_direction.sort_direction = app.sort_direction
    ∧ app.toggle_sort_direction.toggle_sort_direction.sort_field = app.sort_field := by
  refine ⟨fun field dir fs =>
    ⟨sortByC_perm _ _, sortByC_sorted (cmpFile_laws field dir) _,
      fun r => sortByC_filter_eqclass (cmpFile_laws field dir) r fs⟩, ?_, ?_, ?_⟩
  · cases hd : app.sort_direction
    · simp only [BrowserApp.toggle_sort_direction, sortFilesWith, hd]
      rw [cmpFile_desc_eq]
      exact sortByC_swapC_roundtrip (cmpFile_laws app.sort_field .asc) (hd ▸ h)
    · simp only [BrowserApp.toggle_sort_direction, sortFilesWith, hd]
      rw [cmpFile_asc_eq]
      exact sortByC_swapC_roundtrip (cmpFile_laws app.sort_field .desc) (hd ▸ h)
  · cases hd : app.sort_direction <;> simp [BrowserApp.toggle_sort_direction, hd]
  · cases hd : app.sort_direction <;> simp [BrowserApp.toggle_sort_direction, hd]

/-- C6, witness: a sorted snapshot satisfies the hypothesis and the double toggle
restores it. -/
theorem claim_c6_witness :
    SortedC (cmpFile c6SortedApp.sort_field c6SortedApp.sort_direction) c6SortedApp.files
    ∧ c6SortedApp.toggle_sort_direction.toggle_sort_direction.files = c6SortedApp.files :=
  ⟨by unfold SortedC; decide,
    (claim_c6_sort_stable_and_toggle c6SortedApp (by unfold SortedC; decide)).2.1⟩

/-! ## List helpers -/

theorem modifyLast_length {α : Type _} (f : α → α) : (l : List α) →
    (modifyLast f l).length = l.length
  | [] => rfl
  | [_] => rfl
  | a :: b :: l => by
    show (a :: modifyLast f (b :: l)).length = (a :: b :: l).length
    simp [modifyLast_length f (b :: l)]

theorem getLast?_modifyLast {α : Type _} (f : α → α) : (l : List α) →
    (modifyLast f l).getLast? = l.getLast?.map f
  | [] => rfl
  | [_] => rfl
  | a :: b :: l => by
    have ih := getLast?_modifyLast f (b :: l)
    show (a :: modifyLast f (b :: l)).getLast? = ((a :: b :: l).getLast?).map f
    rw [List.getLast?_cons_cons]
    obtain ⟨c, M, hM⟩ : ∃ c M, modifyLast f (b :: l) = c :: M := by
      cases l
      · exact ⟨f b, [], rfl⟩
      · exact ⟨b, _, rfl⟩
    rw [hM, List.getLast?_cons_cons, ← hM, ih]

/-! ## Claim C1 -/

/-- C1, counterexample to the claim as stated: from a state with cursor 2 (of 5
entries), enter a folder, go back, and reload with a list of only one entry: the
cursor is clamped to 0, not restored to 2. -/
theorem claim_c1_counterexample :
    (((c1App.enter_folder 7 "Docs").go_back).set_files [exFile 9 "z" 9]).selected_index
      ≠ c1App.selected_index := by
  decide

/-- C1 (amended): for every state whose breadcrumb stack is non-empty and with no
pending select-after-load id, `enter_folder` followed by `go_back` and then
`set_files` on the refetched list restores the cursor index and scroll offset to
exactly their values before `enter_folder` — provided the refetched list is longer
than the saved cursor and the saved scroll (otherwise `set_files` clamps them to
the last valid index). -/
theorem claim_c1_roundtrip (app : BrowserApp) (id : Int) (name : String) (fs : List File)
    (hbc : app.breadcrumbs ≠ [])
    (hsel : app.pending_select_id = Option.none)
    (hidx : app.selected_index < fs.length)
    (hoff : app.offset < fs.length) :
    (((app.enter_folder id name).go_back).set_files fs).selected_index = app.selected_index
    ∧ (((app.enter_folder id name).go_back).set_files fs).offset = app.offset := by
  obtain ⟨b, hb⟩ := Option.isSome_iff_exists.mp (List.getLast?_isSome.mpr hbc)
  have hgl : (modifyLast (BrowserApp.saveCursor app) app.breadcrumbs).getLast?
      = some (BrowserApp.saveCursor app b) := by
    rw [getLast?_modifyLast, hb]
    rfl
  have hlen : 1 < (app.enter_folder id name).breadcrumbs.length := by
    show 1 < (modifyLast _ app.breadcrumbs ++ [_]).length
    rw [List.length_append, modifyLast_length]
    have := List.length_pos.mpr hbc
    simp only [List.length_singleton]
    omega
  have hgo : (app.enter_folder id name).go_back
      = { app with
          breadcrumbs := modifyLast (BrowserApp.saveCursor app) app.breadcrumbs
          is_search_results := false
          current_folder_id := b.id
          restore_index := some app.selected_index
          restore_offset := some app.offset
          files := []
          selected_index := 0
          modal := .loading } := by
    simp only [BrowserApp.go_back, if_pos hlen]
    simp only [BrowserApp.enter_folder, List.dropLast_concat, hgl]
    simp only [BrowserApp.saveCursor]
  rw [hgo]
  simp only [BrowserApp.set_files, hsel]
  have hlen2 : (sortFilesWith app.sort_field app.sort_direction fs).length = fs.length :=
    (sortByC_perm _ _).length_eq
  constructor
  · simp only [Option.getD_some]
    rw [hlen2]
    omega
  · rw [hlen2]
    omega

/-- C1, witness: with the same 5 entries refetched, cursor 2 and scroll 1 are
restored exactly. -/
theorem claim_c1_witness :
    (((c1App.enter_folder 7 "Docs").go_back).set_files c1App.files).selected_index
        = c1App.selected_index
    ∧ (((c1App.enter_folder 7 "Docs").go_back).set_files c1App.files).offset
        = c1App.offset :=
  claim_c1_roundtrip c1App 7 "Docs" c1App.files (by decide) (by decide) (by decide)
    (by decide)

/-! ## Claim C2 -/


theorem BrowserApp.probeFrom_eq_none_iff (files : List File) (q : String) (sel n : Nat) :
    ∀ (k off : Nat), BrowserApp.probeFrom files q sel n k off = Option.none ↔
      ∀ j, off ≤ j → j < off + k →
        nameMatches q (files.getD ((sel + j) % n) default) = false := by
  intro k
  induction k with
  | zero =>
    intro off
    simp only [BrowserApp.probeFrom]
    constructor
    · intro _ j h1 h2
      omega
    · intro _
      trivial
  | succ k ih =>
    intro off
    rw [BrowserApp.probeFrom]
    by_cases h : nameMatches q (files.getD ((sel + off) % n) default) = true
    · rw [if_pos h]
      constructor
      · intro hc
        exact Option.noConfusion hc
      · intro hall
        rw [hall off le_rfl (by omega)] at h
        exact Bool.noConfusion h
    · rw [if_neg h]
      rw [ih (off + 1)]
      constructor
      · intro hall j h1 h2
        rcases Nat.eq_or_lt_of_le h1 with he | hlt
        · subst he
          exact Bool.eq_false_iff.mpr h
        · exact hall j hlt (by omega)
      · intro hall j h1 h2
        exact hall j (by omega) (by omega)

theorem BrowserApp.probeFrom_eq_some_iff (files : List File) (q : String) (sel n : Nat) :
    ∀ (k off i : Nat), BrowserApp.probeFrom files q sel n k off = some i ↔
      ∃ j, off ≤ j ∧ j < off + k ∧ i = (sel + j) % n
        ∧ nameMatches q (files.getD ((sel + j) % n) default) = true
        ∧ ∀ j', off ≤ j' → j' < j →
            nameMatches q (files.getD ((sel + j') % n) default) = false := by
  intro k
  induction k with
  | zero =>
    intro off i
    simp only [BrowserApp.probeFrom]
    constructor
    · intro hc
      exact Option.noConfusion hc
    · rintro ⟨j, h1, h2, _⟩
      omega
  | succ k ih =>
    intro off i
    rw [BrowserApp.probeFrom]
    by_cases h : nameMatches q (files.getD ((sel + off) % n) default) = true
    · rw [if_pos h]
      constructor
      · intro hi
        refine ⟨off, le_rfl, by omega, (Option.some_inj.mp hi).symm, h, ?_⟩
        intro j' h1 h2
        omega
      · rintro ⟨j, h1, h2, hieq, hj, hmin⟩
        rcases Nat.eq_or_lt_of_le h1 with he | hlt
        · subst he
          rw [hieq]
        · rw [hmin off le_rfl hlt] at h
          exact Bool.noConfusion h
    · rw [if_neg h]
      rw [ih (off + 1) i]
      constructor
      · rintro ⟨j, h1, h2, hieq, hj, hmin⟩
        refine ⟨j, by omega, by omega, hieq, hj, ?_⟩
        intro j' hj1 hj2
        rcases Nat.eq_or_lt_of_le hj1 with he | hlt
        · subst he
          exact Bool.eq_false_iff.mpr h
        · exact hmin j' hlt hj2
      · rintro ⟨j, h1, h2, hieq, hj, hmin⟩
        have hoffj : off ≠ j := by
          intro he
          subst he
          rw [hj] at h
          exact h rfl
        refine ⟨j, by omega, by omega, hieq, hj, ?_⟩
        intro j' hj1 hj2
        exact hmin j' (by omega) hj2

theorem exists_match_offset (files : List File) (hne : files ≠ []) (sel : Nat) (q : String) :
    (∃ f ∈ files, nameMatches q f = true) ↔
      ∃ j, 1 ≤ j ∧ j ≤ files.length ∧
        nameMatches q (files.getD ((sel + j) % files.length) default) = true := by
  have hn : 0 < files.length := List.length_pos.mpr hne
  constructor
  · rintro ⟨f, hf, hm⟩
    obtain ⟨i, hi, hfi⟩ := List.mem_iff_getElem.mp hf
    have hsn : sel % files.length < files.length := Nat.mod_lt _ hn
    have hmod : ∀ j, sel % files.length + j = i ∨ sel % files.length + j = files.length + i →
        (sel + j) % files.length = i := by
      intro j hj
      have hdm := Nat.div_add_mod sel files.length
      have h1 : sel + j = files.length * (sel / files.length) + (sel % files.length + j) := by
        omega
      rw [h1, Nat.mul_add_mod]
      rcases hj with hj | hj
      · rw [hj]
        exact Nat.mod_eq_of_lt hi
      · rw [hj, Nat.add_mod_left]
        exact Nat.mod_eq_of_lt hi
    by_cases hle : sel % files.length < i
    · refine ⟨i - sel % files.length, by omega, by omega, ?_⟩
      rw [hmod _ (Or.inl (by omega)), List.getD_eq_getElem _ _ hi, hfi]
      exact hm
    · refine ⟨files.length + i - sel % files.length, by omega, by omega, ?_⟩
      rw [hmod _ (Or.inr (by omega)), List.getD_eq_getElem _ _ hi, hfi]
      exact hm
  · rintro ⟨j, h1, h2, hm⟩
    have hlt : (sel + j) % files.length < files.length := Nat.mod_lt _ hn
    refine ⟨files.getD ((sel + j) % files.length) default, ?_, hm⟩
    rw [List.getD_eq_getElem _ _ hlt]
    exact List.getElem_mem _

/-- C2: `find_next_with` returns `(app, false)` unchanged when the query or the
list is empty; otherwise it succeeds iff some entry's name contains the query
case-insensitively, leaves the state unchanged on failure, and on success moves
the cursor to the first probed position — probing offsets 1..n from the cursor,
i.e. positions (cursor+off) mod n in order — whose entry matches, with every
earlier probed offset failing the match. -/
theorem claim_c2_find_next_with (app : BrowserApp) (q : String) :
    ((q = "" ∨ app.files = []) → app.find_next_with q = (app, false))
    ∧ (q ≠ "" → app.files ≠ [] →
        (((app.find_next_with q).2 = true) ↔ ∃ f ∈ app.files, nameMatches q f = true)
        ∧ ((app.find_next_with q).2 = false → (app.find_next_with q).1 = app)
        ∧ ((app.find_next_with q).2 = true →
            ∃ off, 1 ≤ off ∧ off ≤ app.files.length
              ∧ (app.find_next_with q).1
                  = { app with selected_index :=
                        (app.selected_index + off) % app.files.length }
              ∧ nameMatches q (app.files.getD
                    ((app.selected_index + off) % app.files.length) default) = true
              ∧ ∀ off2, 1 ≤ off2 → off2 < off →
                  nameMatches q (app.files.getD
                    ((app.selected_index + off2) % app.files.length) default) = false)) := by
  constructor
  · intro h
    rw [BrowserApp.find_next_with, if_pos h]
  · intro hq hne
    have hcond : ¬(q = "" ∨ app.files = []) := by
      rintro (h | h)
      · exact hq h
      · exact hne h
    rcases hp : BrowserApp.probeFrom app.files q app.selected_index app.files.length
        app.files.length 1 with _ | i
    · have hall := (BrowserApp.probeFrom_eq_none_iff app.files q app.selected_index
        app.files.length app.files.length 1).mp hp
      have hres : app.find_next_with q = (app, false) := by
        simp only [BrowserApp.find_next_with]
        rw [if_neg hcond, hp]
      rw [hres]
      refine ⟨?_, fun _ => rfl, ?_⟩
      · simp only [Bool.false_eq_true, false_iff]
        rintro hex
        obtain ⟨j, h1, h2, hm⟩ := (exists_match_offset app.files hne app.selected_index q).mp hex
        rw [hall j h1 (by omega)] at hm
        exact Bool.noConfusion hm
      · intro habs
        exact absurd habs (by simp)
    · obtain ⟨j, h1, h2, hieq, hj, hmin⟩ := (BrowserApp.probeFrom_eq_some_iff app.files q
        app.selected_index app.files.length app.files.length 1 i).mp hp
      have hres : app.find_next_with q = ({ app with selected_index := i }, true) := by
        simp only [BrowserApp.find_next_with]
        rw [if_neg hcond, hp]
      rw [hres]
      refine ⟨?_, ?_, ?_⟩
      · simp only [true_iff]
        exact (exists_match_offset app.files hne app.selected_index q).mpr
          ⟨j, h1, by omega, hj⟩
      · intro habs
        exact absurd habs (by simp)
      · intro _
        refine ⟨j, h1, by omega, ?_, hj, ?_⟩
        · rw [hieq]
        · intro off2 ho1 ho2
          exact hmin off2 ho1 ho2


/-- C2, witness: on the fixture, the find succeeds exactly because "aab" contains
"ab". -/
theorem claim_c2_witness :
    (c2App.find_next_with "ab").2 = true ↔ ∃ f ∈ c2App.files, nameMatches "ab" f = true :=
  ((claim_c2_find_next_with c2App "ab").2 (by decide) (by decide)).1

/-! ## More list and state helpers -/

theorem head?_map_modifyLast {α β : Type _} (f : α → α) (g : α → β)
    (hg : ∀ a, g (f a) = g a) : (l : List α) →
    (modifyLast f l).head?.map g = l.head?.map g
  | [] => rfl
  | [a] => by
    show (some (f a)).map g = (some a).map g
    simp [hg]
  | _ :: _ :: _ => rfl

theorem head?_append_left {α : Type _} {l : List α} (m : List α) (h : l ≠ []) :
    (l ++ m).head? = l.head? := by
  cases l with
  | nil => exact absurd rfl h
  | cons a t => rfl

theorem head?_dropLast {α : Type _} {l : List α} (h : 1 < l.length) :
    l.dropLast.head? = l.head? := by
  cases l with
  | nil => simp at h
  | cons a t =>
    cases t with
    | nil => simp at h
    | cons b t' => rfl

theorem modifyLast_ne_nil {α : Type _} (f : α → α) {l : List α} (h : l ≠ []) :
    modifyLast f l ≠ [] := by
  intro he
  have hlen := modifyLast_length f l
  rw [he] at hlen
  exact h (List.length_eq_zero.mp hlen.symm)

theorem navinv_ne_nil {app : BrowserApp} (h : NavInv app) : app.breadcrumbs ≠ [] := by
  intro he
  rw [NavInv, he] at h
  exact Option.noConfusion h

theorem navinv_reset_to_root {app : BrowserApp} (h : NavInv app) :
    NavInv app.reset_to_root := by
  have hne := navinv_ne_nil h
  rcases hbc : app.breadcrumbs with _ | ⟨b, t⟩
  · exact absurd hbc hne
  · have hb : app.reset_to_root.breadcrumbs
        = [{ b with saved_index := 0, saved_offset := 0 }] := by
      simp only [BrowserApp.reset_to_root, hbc]
    have hid : b.id = 0 := by
      rw [NavInv, hbc] at h
      simpa using h
    show app.reset_to_root.breadcrumbs.head?.map BreadcrumbEntry.id = some 0
    rw [hb]
    simp [hid]

theorem find_next_with_shape (a : BrowserApp) (q : String) :
    ∃ i, (a.find_next_with q).1 = { a with selected_index := i } := by
  by_cases h : q = "" ∨ a.files = []
  · refine ⟨a.selected_index, ?_⟩
    simp only [BrowserApp.find_next_with]
    rw [if_pos h]
  · rcases hp : BrowserApp.probeFrom a.files q a.selected_index a.files.length
      a.files.length 1 with _ | i
    · refine ⟨a.selected_index, ?_⟩
      simp only [BrowserApp.find_next_with]
      rw [if_neg h, hp]
    · refine ⟨i, ?_⟩
      simp only [BrowserApp.find_next_with]
      rw [if_neg h, hp]

/-! ## Claim C3 -/

/-- C3, counterexample to the claim as stated: confirming the query "zz" in the
Find modal finds no match, yet "zz" replaces the previously successful query
"abc" as the remembered query. -/
theorem claim_c3_counterexample :
    (handle_key exExt "tok" c3App ⟨.enter, false⟩).last_search = some "zz"
    ∧ (c3App.find_next_with "zz").2 = false := by
  decide

/-- C3 (amended): the query remembered for repeat search is the last non-empty
query confirmed with Enter in the Find modal, whether or not it matched; and
`find_next` replays the remembered query. -/
theorem claim_c3_last_search (ext : Ext) (token : String) (app : BrowserApp) (q : String)
    (hm : app.modal = .find q) (hq : q ≠ "") :
    (handle_key ext token app ⟨.enter, false⟩).last_search = some q
    ∧ ∀ app2 : BrowserApp, app2.last_search = some q →
        app2.find_next = app2.find_next_with q := by
  constructor
  · simp only [handle_key, hm]
    simp only [Bool.false_eq_true, false_and, if_false]
    rw [if_pos hq]
    obtain ⟨i, hi⟩ := find_next_with_shape
      { app with modal := .none, last_search := some q } q
    rw [hi]
  · intro app2 h2
    simp only [BrowserApp.find_next, h2]

/-- C3, witness: the fixture remembers "zz" after Enter, and a state remembering
"zz" replays it on `find_next`. -/
theorem claim_c3_witness :
    (handle_key exExt "tok" c3App ⟨.enter, false⟩).last_search = some "zz"
    ∧ ({ BrowserApp.new with last_search := some "zz" } : BrowserApp).find_next
        = ({ BrowserApp.new with last_search := some "zz" } : BrowserApp).find_next_with
            "zz" :=
  ⟨(claim_c3_last_search exExt "tok" c3App "zz" rfl (by decide)).1,
    (claim_c3_last_search exExt "tok" c3App "zz" rfl (by decide)).2
      { BrowserApp.new with last_search := some "zz" } rfl⟩

/-! ## Claim C4 -/

/-- C4: `enter_search_results` replaces the snapshot and resets cursor and scroll
to 0 and clears the modal; when the search flag is set it rewrites the top
breadcrumb's name to "Search: {query}" in place (count and top id unchanged);
when it is clear it pushes exactly one virtual breadcrumb with id -1 and sets the
flag. -/
theorem claim_c4_enter_search_results (app : BrowserApp) (q : String) (fs : List File) :
    (app.enter_search_results q fs).files = fs
    ∧ (app.enter_search_results q fs).selected_index = 0
    ∧ (app.enter_search_results q fs).offset = 0
    ∧ (app.enter_search_results q fs).modal = .none
    ∧ (app.is_search_results = true →
        (app.enter_search_results q fs).breadcrumbs.length = app.breadcrumbs.length
        ∧ (app.breadcrumbs ≠ [] →
            (app.enter_search_results q fs).breadcrumbs.getLast?.map BreadcrumbEntry.name
              = some ("Search: " ++ q)
            ∧ (app.enter_search_results q fs).breadcrumbs.getLast?.map BreadcrumbEntry.id
              = app.breadcrumbs.getLast?.map BreadcrumbEntry.id))
    ∧ (app.is_search_results = false →
        (app.enter_search_results q fs).breadcrumbs.length = app.breadcrumbs.length + 1
        ∧ (app.enter_search_results q fs).breadcrumbs.getLast?
            = some ⟨-1, "Search: " ++ q, 0, 0⟩
        ∧ (app.enter_search_results q fs).is_search_results = true) := by
  refine ⟨?_, ?_, ?_, ?_, ?_, ?_⟩
  · by_cases hs : app.is_search_results <;>
      simp [BrowserApp.enter_search_results, hs]
  · by_cases hs : app.is_search_results <;>
      simp [BrowserApp.enter_search_results, hs]
  · by_cases hs : app.is_search_results <;>
      simp [BrowserApp.enter_search_results, hs]
  · by_cases hs : app.is_search_results <;>
      simp [BrowserApp.enter_search_results, hs]
  · intro hs
    have hb : (app.enter_search_results q fs).breadcrumbs
        = modifyLast (BrowserApp.renameCrumb q) app.breadcrumbs := by
      simp only [BrowserApp.enter_search_results, hs, if_true]
    constructor
    · rw [hb, modifyLast_length]
    · intro hne
      obtain ⟨b, hlast⟩ := Option.isSome_iff_exists.mp (List.getLast?_isSome.mpr hne)
      rw [hb, getLast?_modifyLast, hlast]
      constructor
      · rfl
      · rfl
  · intro hs
    have hb : (app.enter_search_results q fs).breadcrumbs
        = modifyLast (BrowserApp.saveCursor app) app.breadcrumbs
            ++ [⟨-1, "Search: " ++ q, 0, 0⟩] := by
      simp only [BrowserApp.enter_search_results, hs, Bool.false_eq_true, if_false]
    refine ⟨?_, ?_, ?_⟩
    · rw [hb, List.length_append, modifyLast_length, List.length_singleton]
    · rw [hb, List.getLast?_concat]
    · simp [BrowserApp.enter_search_results, hs]

/-- C4, witness: replacing while searching keeps the breadcrumb count; entering
fresh search results adds exactly one. -/
theorem claim_c4_witness :
    (c4SearchApp.enter_search_results "bar" []).breadcrumbs.length
        = c4SearchApp.breadcrumbs.length
    ∧ (BrowserApp.new.enter_search_results "foo" []).breadcrumbs.length
        = BrowserApp.new.breadcrumbs.length + 1 :=
  ⟨((claim_c4_enter_search_results c4SearchApp "bar" []).2.2.2.2.1 rfl).1,
    ((claim_c4_enter_search_results BrowserApp.new "foo" []).2.2.2.2.2 rfl).1⟩

/-! ## Claim C5 -/

/-- C5: the navigation-stack invariant — breadcrumbs non-empty with the root
(id 0) first — holds in the initial state and is preserved by every navigation
operation. -/
theorem claim_c5_nav_invariant :
    NavInv BrowserApp.new
    ∧ ∀ app : BrowserApp, NavInv app →
        (∀ (id : Int) (name : String), NavInv (app.enter_folder id name))
        ∧ NavInv app.go_back
        ∧ (∀ (q : String) (fs : List File), NavInv (app.enter_search_results q fs))
        ∧ NavInv app.reset_to_root
        ∧ (∀ (pid fid : Int), NavInv (app.navigate_to_folder pid fid))
        ∧ (∀ fs : List File, NavInv (app.set_files fs)) := by
  constructor
  · rfl
  · intro app h
    have hne : app.breadcrumbs ≠ [] := navinv_ne_nil h
    refine ⟨?_, ?_, ?_, navinv_reset_to_root h, ?_, ?_⟩
    · intro id name
      have hb : (app.enter_folder id name).breadcrumbs
          = modifyLast (BrowserApp.saveCursor app) app.breadcrumbs
              ++ [⟨id, name, 0, 0⟩] := rfl
      show (app.enter_folder id name).breadcrumbs.head?.map BreadcrumbEntry.id = some 0
      rw [hb, head?_append_left _ (modifyLast_ne_nil _ hne),
        head?_map_modifyLast (BrowserApp.saveCursor app) BreadcrumbEntry.id
          (fun b => rfl)]
      exact h
    · by_cases hlen : app.breadcrumbs.length > 1
      · rcases hg : app.breadcrumbs.dropLast.getLast? with _ | parent
        · have hb : app.go_back = app := by
            simp only [BrowserApp.go_back, if_pos hlen, hg]
          rw [hb]
          exact h
        · have hb : app.go_back.breadcrumbs = app.breadcrumbs.dropLast := by
            simp only [BrowserApp.go_back, if_pos hlen, hg]
          show app.go_back.breadcrumbs.head?.map BreadcrumbEntry.id = some 0
          rw [hb, head?_dropLast hlen]
          exact h
      · have hb : app.go_back = app := by
          simp only [BrowserApp.go_back, if_neg hlen]
        rw [hb]
        exact h
    · intro q fs
      by_cases hs : app.is_search_results
      · have hb : (app.enter_search_results q fs).breadcrumbs
            = modifyLast (BrowserApp.renameCrumb q) app.breadcrumbs := by
          simp only [BrowserApp.enter_search_results, if_pos hs]
        show (app.enter_search_results q fs).breadcrumbs.head?.map BreadcrumbEntry.id
          = some 0
        rw [hb, head?_map_modifyLast (BrowserApp.renameCrumb q) BreadcrumbEntry.id
          (fun b => rfl)]
        exact h
      · have hb : (app.enter_search_results q fs).breadcrumbs
            = modifyLast (BrowserApp.saveCursor app) app.breadcrumbs
                ++ [⟨-1, "Search: " ++ q, 0, 0⟩] := by
          simp only [BrowserApp.enter_search_results, if_neg hs]
        show (app.enter_search_results q fs).breadcrumbs.head?.map BreadcrumbEntry.id
          = some 0
        rw [hb, head?_append_left _ (modifyLast_ne_nil _ hne),
          head?_map_modifyLast (BrowserApp.saveCursor app) BreadcrumbEntry.id
            (fun b => rfl)]
        exact h
    · intro pid fid
      have hroot := navinv_reset_to_root h
      by_cases hp : pid ≠ 0
      · have hb : (app.navigate_to_folder pid fid).breadcrumbs
            = app.reset_to_root.breadcrumbs ++ [⟨pid, "...", 0, 0⟩] := by
          simp only [BrowserApp.navigate_to_folder, bne_iff_ne, ne_eq, hp,
            not_false_eq_true, if_true]
        show (app.navigate_to_folder pid fid).breadcrumbs.head?.map BreadcrumbEntry.id
          = some 0
        rw [hb, head?_append_left _ (navinv_ne_nil hroot)]
        exact hroot
      · have hb : (app.navigate_to_folder pid fid).breadcrumbs
            = app.reset_to_root.breadcrumbs := by
          simp only [BrowserApp.navigate_to_folder, bne_iff_ne, ne_eq, hp,
            not_false_eq_true, if_false]
        show (app.navigate_to_folder pid fid).breadcrumbs.head?.map BreadcrumbEntry.id
          = some 0
        rw [hb]
        exact hroot
    · intro fs
      have hb : (app.set_files fs).breadcrumbs = app.breadcrumbs := by
        rcases hps : app.pending_select_id with _ | sid <;>
          simp only [BrowserApp.set_files, hps]
      show (app.set_files fs).breadcrumbs.head?.map BreadcrumbEntry.id = some 0
      rw [hb]
      exact h

/-- C5, witness: the invariant holds for the initial state and survives a
`go_back`. -/
theorem claim_c5_witness :
    NavInv BrowserApp.new ∧ NavInv BrowserApp.new.go_back :=
  ⟨claim_c5_nav_invariant.1,
    (claim_c5_nav_invariant.2 BrowserApp.new rfl).2.1⟩

/-! ## Claim C7 -/

/-- C7: in the ConfirmDelete modal, 'n'/'N'/Esc only dismiss the modal (state —
including the pending action — otherwise unchanged), while 'y'/'Y' saves the
cursor and scroll for restoration, queues `PendingAction::Delete` for the file
and shows the loading modal. -/
theorem claim_c7_confirm_delete (ext : Ext) (token : String) (app : BrowserApp)
    (fid : Int) (fname : String) (hm : app.modal = .confirmDelete fid fname) :
    (∀ c, (c = 'n' ∨ c = 'N') →
        handle_key ext token app ⟨.char c, false⟩ = { app with modal := .none })
    ∧ handle_key ext token app ⟨.esc, false⟩ = { app with modal := .none }
    ∧ (∀ c, (c = 'y' ∨ c = 'Y') →
        handle_key ext token app ⟨.char c, false⟩
          = { app with
              restore_index := some app.selected_index
              restore_offset := some app.offset
              pending_action := .delete fid
              spinner_label := "Deleting..."
              modal := .loading }) := by
  refine ⟨?_, ?_, ?_⟩
  · intro c hc
    rcases hc with hc | hc <;> subst hc <;>
      simp [handle_key, hm]
  · simp [handle_key, hm]
  · intro c hc
    rcases hc with hc | hc <;> subst hc <;>
      simp [handle_key, hm, BrowserApp.save_position_for_reload]

/-- C7, witness: on the fixture, 'n' dismisses without queueing, 'y' queues the
delete of file 42 and shows loading. -/
theorem claim_c7_witness :
    handle_key exExt "tok" c7App ⟨.char 'n', false⟩ = { c7App with modal := .none }
    ∧ handle_key exExt "tok" c7App ⟨.char 'y', false⟩
        = { c7App with
            restore_index := some c7App.selected_index
            restore_offset := some c7App.offset
            pending_action := .delete 42
            spinner_label := "Deleting..."
            modal := .loading } :=
  ⟨(claim_c7_confirm_delete exExt "tok" c7App 42 "doomed" rfl).1 'n' (Or.inl rfl),
    (claim_c7_confirm_delete exExt "tok" c7App 42 "doomed" rfl).2.2 'y' (Or.inl rfl)⟩

/-! ## Claim C10 -/


/-- C10: dispatching "Go to folder" for a file id absent from the snapshot falls
back to parent id 0 (the root) in the queued GoToFolder action, and the drive
loop's subsequent `navigate_to_folder` resets to the single root breadcrumb,
records the file id for selection after load, and schedules a reload behind the
loading modal. -/
theorem claim_c10_go_to_folder_fallback (ext : Ext) (token : String) (app : BrowserApp)
    (fid : Int) (ftype : String)
    (hnot : ∀ f ∈ app.files, f.id ≠ fid) :
    (execute_file_action ext token app "Go to folder" fid ftype).pending_action
      = .goToFolder 0 fid
    ∧ ∀ app2 : BrowserApp, NavInv app2 →
        (drain_go_to_folder app2 0 fid).breadcrumbs.length = 1
        ∧ NavInv (drain_go_to_folder app2 0 fid)
        ∧ (drain_go_to_folder app2 0 fid).pending_select_id = some fid
        ∧ (drain_go_to_folder app2 0 fid).modal = .loading
        ∧ (drain_go_to_folder app2 0 fid).needs_reload = true := by
  constructor
  · have hfind : app.files.find? (fun f => f.id == fid) = Option.none :=
      List.find?_eq_none.mpr (fun x hx => by simpa using hnot x hx)
    simp [execute_file_action, hfind]
  · intro app2 h2
    have hroot := navinv_reset_to_root h2
    have hb : (app2.navigate_to_folder 0 fid).breadcrumbs
        = app2.reset_to_root.breadcrumbs := by
      simp [BrowserApp.navigate_to_folder]
    have hbl : app2.reset_to_root.breadcrumbs.length = 1 := by
      rcases hbc : app2.breadcrumbs with _ | ⟨b, t⟩
      · exact absurd hbc (navinv_ne_nil h2)
      · simp [BrowserApp.reset_to_root, hbc]
    refine ⟨?_, ?_, ?_, ?_, ?_⟩
    · show (app2.navigate_to_folder 0 fid).breadcrumbs.length = 1
      rw [hb, hbl]
    · show (app2.navigate_to_folder 0 fid).breadcrumbs.head?.map BreadcrumbEntry.id
        = some 0
      rw [hb]
      exact hroot
    · simp [drain_go_to_folder, BrowserApp.navigate_to_folder]
    · simp [drain_go_to_folder, BrowserApp.navigate_to_folder]
    · rfl


/-- C10, witness: file 99 is not in the fixture's snapshot; the action queues
GoToFolder{0, 99}, and navigating resets to the lone root breadcrumb. -/
theorem claim_c10_witness :
    (execute_file_action exExt "tok" c10App "Go to folder" 99 "VIDEO").pending_action
      = .goToFolder 0 99
    ∧ (drain_go_to_folder BrowserApp.new 0 99).breadcrumbs.length = 1 :=
  ⟨(claim_c10_go_to_folder_fallback exExt "tok" c10App 99 "VIDEO" (by decide)).1,
    ((claim_c10_go_to_folder_fallback exExt "tok" c10App 99 "VIDEO" (by decide)).2
      BrowserApp.new rfl).1⟩

/-! ## Claim C9 -/


theorem file_actions_for_length (ftype : String) (flag : Bool) :
    4 ≤ (file_actions_for ftype flag).length := by
  rw [file_actions_for]
  by_cases h1 : ftype = "FOLDER" <;> by_cases h2 : ftype = "VIDEO" <;>
    cases flag <;> simp [h1, h2]

theorem invfa_of_modal_ne {a : BrowserApp}
    (h : ∀ fid fn ft sel, a.modal ≠ ModalState.fileActions fid fn ft sel) : InvFA a :=
  fun fid fn ft sel hmod => absurd hmod (h fid fn ft sel)

theorem invfa_congr {a a' : BrowserApp} (hm : a'.modal = a.modal)
    (hf : a'.is_search_results = a.is_search_results) (h : InvFA a) : InvFA a' := by
  intro fid fn ft sel hmod
  rw [hm] at hmod
  rw [hf]
  exact h fid fn ft sel hmod

theorem invfa_of_fa_zero {a : BrowserApp} {f1 : Int} {n1 t1 : String}
    (hm : a.modal = .fileActions f1 n1 t1 0) : InvFA a := by
  intro fid fn ft sel hmod
  rw [hm] at hmod
  injection hmod with h1 h2 h3 h4
  subst h3
  subst h4
  have := file_actions_for_length t1 a.is_search_results
  omega

theorem copy_to_clipboard_modal_ne_fa (ext : Ext) (a : BrowserApp) (t m : String)
    (fid : Int) (fn ft : String) (sel : Nat) :
    (copy_to_clipboard ext a t m).modal ≠ .fileActions fid fn ft sel := by
  cases hc : ext.clip <;> simp [copy_to_clipboard, hc]

theorem open_in_browser_modal_ne_fa (ext : Ext) (a : BrowserApp) (u : String)
    (fid : Int) (fn ft : String) (sel : Nat) :
    (open_in_browser ext a u).modal ≠ .fileActions fid fn ft sel := by
  cases hc : ext.browser <;> simp [open_in_browser, hc]

theorem exec_modal_ne_fa (ext : Ext) (token : String) (a : BrowserApp) (act : String)
    (fid : Int) (ft : String) (ha : a.modal = .none) (f2 : Int) (n2 t2 : String)
    (s2 : Nat) :
    (execute_file_action ext token a act fid ft).modal ≠ .fileActions f2 n2 t2 s2 := by
  have hcp : ∀ t m : String,
      (copy_to_clipboard ext a t m).modal ≠ .fileActions f2 n2 t2 s2 :=
    fun t m => copy_to_clipboard_modal_ne_fa ext a t m f2 n2 t2 s2
  rw [execute_file_action]
  by_cases h1 : act = "Copy URL"
  · rw [if_pos h1]
    rcases hu : ext.urlRes with e | u
    · simp
    · exact hcp _ _
  rw [if_neg h1]
  by_cases h2 : act = "Copy Stream URL"
  · rw [if_pos h2]
    exact hcp _ _
  rw [if_neg h2]
  by_cases h3 : act = "Download"
  · rw [if_pos h3]
    simp [ha]
  rw [if_neg h3]
  by_cases h4 : act = "Open in browser"
  · rw [if_pos h4]
    exact open_in_browser_modal_ne_fa ext a _ f2 n2 t2 s2
  rw [if_neg h4]
  by_cases h5 : act = "Copy file ID"
  · rw [if_pos h5]
    exact hcp _ _
  rw [if_neg h5]
  by_cases h6 : act = "Copy path"
  · rw [if_pos h6]
    rcases hf : a.files.find? (fun f => f.id == fid) with _ | file <;> simp [hf]
  rw [if_neg h6]
  by_cases h7 : act = "Download as zip"
  · rw [if_pos h7]
    simp [ha]
  rw [if_neg h7]
  by_cases h8 : act = "Copy folder ID"
  · rw [if_pos h8]
    exact hcp _ _
  rw [if_neg h8]
  by_cases h9 : act = "Go to folder"
  · rw [if_pos h9]
    simp [ha]
  rw [if_neg h9]
  simp [ha]

theorem go_back_cases (a : BrowserApp) :
    a.go_back = a ∨ a.go_back.modal = .loading := by
  by_cases hlen : a.breadcrumbs.length > 1
  · rcases hg : a.breadcrumbs.dropLast.getLast? with _ | parent
    · left
      simp only [BrowserApp.go_back, if_pos hlen, hg]
    · right
      simp only [BrowserApp.go_back, if_pos hlen, hg]
  · left
    simp only [BrowserApp.go_back, if_neg hlen]

theorem find_next_shape (a : BrowserApp) :
    ∃ i, (a.find_next).1 = { a with selected_index := i } := by
  by_cases hl : a.last_search = Option.none
  · refine ⟨a.selected_index, ?_⟩
    simp only [BrowserApp.find_next, hl]
    rw [← hl]
  · obtain ⟨q, hq⟩ := Option.ne_none_iff_exists'.mp hl
    obtain ⟨i, hi⟩ := find_next_with_shape a q
    refine ⟨i, ?_⟩
    simp only [BrowserApp.find_next, hq]
    rw [← hq]
    exact hi


theorem sel_up_lt {sel0 n : Nat} (hn : 0 < n) (hsel : sel0 < n) :
    (if sel0 = 0 then n - 1 else sel0 - 1) < n := by
  by_cases h0 : sel0 = 0 <;> simp [h0] <;> omega

theorem modal_move_up (a : BrowserApp) : (a.move_up).modal = a.modal := by
  rw [BrowserApp.move_up]
  split_ifs <;> rfl

theorem flag_move_up (a : BrowserApp) : (a.move_up).is_search_results = a.is_search_results := by
  rw [BrowserApp.move_up]
  split_ifs <;> rfl

theorem modal_move_down (a : BrowserApp) : (a.move_down).modal = a.modal := by
  rw [BrowserApp.move_down]
  split_ifs <;> rfl

theorem flag_move_down (a : BrowserApp) : (a.move_down).is_search_results = a.is_search_results := by
  rw [BrowserApp.move_down]
  split_ifs <;> rfl

theorem modal_move_page_down (a : BrowserApp) : (a.move_page_down).modal = a.modal := by
  rw [BrowserApp.move_page_down]
  split_ifs <;> rfl

theorem flag_move_page_down (a : BrowserApp) :
    (a.move_page_down).is_search_results = a.is_search_results := by
  rw [BrowserApp.move_page_down]
  split_ifs <;> rfl


theorem invfa_browsing (app : BrowserApp) (key : KeyEvent) (hm : app.modal = .none)
    (hinv : InvFA app) : InvFA (handle_key_browsing app key) := by
  obtain ⟨code, ctrl⟩ := key
  cases code with
  | char c =>
    simp only [handle_key_browsing]
    by_cases h1 : c = 'q'
    · rw [if_pos h1]
      exact invfa_congr rfl rfl hinv
    rw [if_neg h1]
    by_cases h2 : c = 'k'
    · rw [if_pos h2]
      exact invfa_congr (modal_move_up app) (flag_move_up app) hinv
    rw [if_neg h2]
    by_cases h3 : c = 'j'
    · rw [if_pos h3]
      exact invfa_congr (modal_move_down app) (flag_move_down app) hinv
    rw [if_neg h3]
    by_cases h4 : c = 'u' ∧ ctrl = true
    · rw [if_pos h4]
      exact invfa_congr rfl rfl hinv
    rw [if_neg h4]
    by_cases h5 : c = 'd' ∧ ctrl = true
    · rw [if_pos h5]
      exact invfa_congr (modal_move_page_down app) (flag_move_page_down app) hinv
    rw [if_neg h5]
    by_cases h6 : c = 'o' ∧ ctrl = true
    · rw [if_pos h6]
      rcases hsf : app.selected_file with _ | file
      · simp only [hsf]
        exact hinv
      · simp only [hsf]
        exact invfa_of_fa_zero rfl
    rw [if_neg h6]
    by_cases h7 : c = '/'
    · rw [if_pos h7]
      exact invfa_of_modal_ne (fun f2 n2 t2 s2 => by simp)
    rw [if_neg h7]
    by_cases h8 : c = 'f' ∧ ctrl = true
    · rw [if_pos h8]
      exact invfa_of_modal_ne (fun f2 n2 t2 s2 => by simp)
    rw [if_neg h8]
    by_cases h9 : c = 'n'
    · rw [if_pos h9]
      obtain ⟨i, hi⟩ := find_next_shape app
      rw [hi]
      exact invfa_congr rfl rfl hinv
    rw [if_neg h9]
    by_cases h10 : c = 's'
    · rw [if_pos h10]
      exact invfa_congr rfl rfl hinv
    rw [if_neg h10]
    by_cases h11 : c = 'r'
    · rw [if_pos h11]
      exact invfa_congr rfl rfl hinv
    rw [if_neg h11]
    by_cases h12 : c = 'x'
    · rw [if_pos h12]
      rcases hsf : app.selected_file with _ | file
      · simp only [hsf]
        exact hinv
      · simp only [hsf]
        exact invfa_of_modal_ne (fun f2 n2 t2 s2 => by simp)
    rw [if_neg h12]
    exact hinv
  | esc =>
    simp only [handle_key_browsing]
    by_cases hlen : app.breadcrumbs.length > 1
    · rw [if_pos hlen]
      apply invfa_of_modal_ne
      intro f2 n2 t2 s2
      show app.go_back.modal ≠ _
      rcases go_back_cases app with h | h
      · rw [h, hm]
        simp
      · rw [h]
        simp
    · rw [if_neg hlen]
      exact invfa_congr rfl rfl hinv
  | up =>
    exact invfa_congr (modal_move_up app) (flag_move_up app) hinv
  | down =>
    exact invfa_congr (modal_move_down app) (flag_move_down app) hinv
  | enter =>
    simp only [handle_key_browsing]
    rcases hsf : app.selected_file with _ | file
    · simp only [hsf]
      exact hinv
    · simp only [hsf]
      by_cases hft : file.file_type = "FOLDER"
      · rw [if_pos hft]
        apply invfa_of_modal_ne
        intro f2 n2 t2 s2
        simp [BrowserApp.enter_folder]
      · rw [if_neg hft]
        exact invfa_of_fa_zero rfl
  | left =>
    apply invfa_of_modal_ne
    intro f2 n2 t2 s2
    show app.go_back.modal ≠ _
    rcases go_back_cases app with h | h
    · rw [h, hm]
      simp
    · rw [h]
      simp
  | backspace =>
    apply invfa_of_modal_ne
    intro f2 n2 t2 s2
    show app.go_back.modal ≠ _
    rcases go_back_cases app with h | h
    · rw [h, hm]
      simp
    · rw [h]
      simp
  | other => exact hinv


theorem invfa_hk_confirm (ext : Ext) (token : String) (app : BrowserApp)
    (fid0 : Int) (fn0 : String) (code : KeyCode) (ctrl : Bool)
    (hcc : ¬(ctrl = true ∧ code = KeyCode.char 'c'))
    (hm : app.modal = .confirmDelete fid0 fn0) (hinv : InvFA app) :
    InvFA (handle_key ext token app ⟨code, ctrl⟩) := by
  cases code with
  | char c =>
    simp only [handle_key, if_neg hcc, hm]
    by_cases hy : c = 'y' ∨ c = 'Y'
    · rw [if_pos hy]
      exact invfa_of_modal_ne (fun f2 n2 t2 s2 => by simp)
    rw [if_neg hy]
    by_cases hn : c = 'n' ∨ c = 'N'
    · rw [if_pos hn]
      exact invfa_of_modal_ne (fun f2 n2 t2 s2 => by simp)
    · rw [if_neg hn]
      exact invfa_congr rfl rfl hinv
  | esc =>
    simp only [handle_key, if_neg hcc, hm]
    exact invfa_of_modal_ne (fun f2 n2 t2 s2 => by simp)
  | enter =>
    simp only [handle_key, if_neg hcc, hm]
    exact invfa_congr rfl rfl hinv
  | backspace =>
    simp only [handle_key, if_neg hcc, hm]
    exact invfa_congr rfl rfl hinv
  | up =>
    simp only [handle_key, if_neg hcc, hm]
    exact invfa_congr rfl rfl hinv
  | down =>
    simp only [handle_key, if_neg hcc, hm]
    exact invfa_congr rfl rfl hinv
  | left =>
    simp only [handle_key, if_neg hcc, hm]
    exact invfa_congr rfl rfl hinv
  | other =>
    simp only [handle_key, if_neg hcc, hm]
    exact invfa_congr rfl rfl hinv


theorem invfa_hk_fa (ext : Ext) (token : String) (app : BrowserApp)
    (fid0 : Int) (fn0 ft0 : String) (sel0 : Nat) (code : KeyCode) (ctrl : Bool)
    (hcc : ¬(ctrl = true ∧ code = KeyCode.char 'c'))
    (hm : app.modal = .fileActions fid0 fn0 ft0 sel0) (hinv : InvFA app) :
    InvFA (handle_key ext token app ⟨code, ctrl⟩) := by
  have hsel : sel0 < (file_actions_for ft0 app.is_search_results).length :=
    hinv fid0 fn0 ft0 sel0 hm
  have hn4 := file_actions_for_length ft0 app.is_search_results
  cases code with
  | up =>
    simp only [handle_key, if_neg hcc, hm]
    intro f2 n2 t2 s2 hmod
    injection hmod with e1 e2 e3 e4
    subst e3
    subst e4
    exact sel_up_lt (by omega) hsel
  | down =>
    simp only [handle_key, if_neg hcc, hm]
    intro f2 n2 t2 s2 hmod
    injection hmod with e1 e2 e3 e4
    subst e3
    subst e4
    exact Nat.mod_lt _ (by omega)
  | enter =>
    simp only [handle_key, if_neg hcc, hm]
    exact invfa_of_modal_ne
      (fun f2 n2 t2 s2 => exec_modal_ne_fa ext token _ _ fid0 ft0 rfl f2 n2 t2 s2)
  | esc =>
    simp only [handle_key, if_neg hcc, hm]
    exact invfa_of_modal_ne (fun f2 n2 t2 s2 => by simp)
  | char c =>
    simp only [handle_key, if_neg hcc, hm]
    by_cases hk : c = 'k'
    · rw [if_pos hk]
      intro f2 n2 t2 s2 hmod
      injection hmod with e1 e2 e3 e4
      subst e3
      subst e4
      exact sel_up_lt (by omega) hsel
    rw [if_neg hk]
    by_cases hj : c = 'j'
    · rw [if_pos hj]
      intro f2 n2 t2 s2 hmod
      injection hmod with e1 e2 e3 e4
      subst e3
      subst e4
      exact Nat.mod_lt _ (by omega)
    rw [if_neg hj]
    rcases hfind : (file_actions_for ft0 app.is_search_results).find?
        (fun a => a.key == c) with _ | action
    · simp only [hfind]
      exact invfa_congr rfl rfl hinv
    · simp only [hfind]
      exact invfa_of_modal_ne
        (fun f2 n2 t2 s2 => exec_modal_ne_fa ext token _ _ fid0 ft0 rfl f2 n2 t2 s2)
  | backspace =>
    simp only [handle_key, if_neg hcc, hm]
    exact invfa_congr rfl rfl hinv
  | left =>
    simp only [handle_key, if_neg hcc, hm]
    exact invfa_congr rfl rfl hinv
  | other =>
    simp only [handle_key, if_neg hcc, hm]
    exact invfa_congr rfl rfl hinv

theorem invfa_hk_find (ext : Ext) (token : String) (app : BrowserApp)
    (q : String) (code : KeyCode) (ctrl : Bool)
    (hcc : ¬(ctrl = true ∧ code = KeyCode.char 'c'))
    (hm : app.modal = .find q) (hinv : InvFA app) :
    InvFA (handle_key ext token app ⟨code, ctrl⟩) := by
  cases code with
  | esc =>
    simp only [handle_key, if_neg hcc, hm]
    exact invfa_of_modal_ne (fun f2 n2 t2 s2 => by simp)
  | enter =>
    simp only [handle_key, if_neg hcc, hm]
    by_cases hq : q ≠ ""
    · rw [if_pos hq]
      obtain ⟨i, hi⟩ := find_next_with_shape
        { app with modal := .none, last_search := some q } q
      rw [hi]
      exact invfa_of_modal_ne (fun f2 n2 t2 s2 => by simp)
    · rw [if_neg hq]
      exact invfa_of_modal_ne (fun f2 n2 t2 s2 => by simp)
  | backspace =>
    simp only [handle_key, if_neg hcc, hm]
    exact invfa_of_modal_ne (fun f2 n2 t2 s2 => by simp)
  | char c =>
    simp only [handle_key, if_neg hcc, hm]
    by_cases hctrl : ¬ ctrl = true
    · rw [if_pos hctrl]
      exact invfa_of_modal_ne (fun f2 n2 t2 s2 => by simp)
    · rw [if_neg hctrl]
      exact invfa_congr rfl rfl hinv
  | up =>
    simp only [handle_key, if_neg hcc, hm]
    exact invfa_congr rfl rfl hinv
  | down =>
    simp only [handle_key, if_neg hcc, hm]
    exact invfa_congr rfl rfl hinv
  | left =>
    simp only [handle_key, if_neg hcc, hm]
    exact invfa_congr rfl rfl hinv
  | other =>
    simp only [handle_key, if_neg hcc, hm]
    exact invfa_congr rfl rfl hinv

theorem invfa_hk_search (ext : Ext) (token : String) (app : BrowserApp)
    (q : String) (code : KeyCode) (ctrl : Bool)
    (hcc : ¬(ctrl = true ∧ code = KeyCode.char 'c'))
    (hm : app.modal = .searchInput q) (hinv : InvFA app) :
    InvFA (handle_key ext token app ⟨code, ctrl⟩) := by
  cases code with
  | esc =>
    simp only [handle_key, if_neg hcc, hm]
    exact invfa_of_modal_ne (fun f2 n2 t2 s2 => by simp)
  | enter =>
    simp only [handle_key, if_neg hcc, hm]
    by_cases hq : q ≠ ""
    · rw [if_pos hq]
      exact invfa_of_modal_ne (fun f2 n2 t2 s2 => by simp)
    · rw [if_neg hq]
      exact invfa_of_modal_ne (fun f2 n2 t2 s2 => by simp)
  | backspace =>
    simp only [handle_key, if_neg hcc, hm]
    exact invfa_of_modal_ne (fun f2 n2 t2 s2 => by simp)
  | char c =>
    simp only [handle_key, if_neg hcc, hm]
    by_cases hctrl : ¬ ctrl = true
    · rw [if_pos hctrl]
      exact invfa_of_modal_ne (fun f2 n2 t2 s2 => by simp)
    · rw [if_neg hctrl]
      exact invfa_congr rfl rfl hinv
  | up =>
    simp only [handle_key, if_neg hcc, hm]
    exact invfa_congr rfl rfl hinv
  | down =>
    simp only [handle_key, if_neg hcc, hm]
    exact invfa_congr rfl rfl hinv
  | left =>
    simp only [handle_key, if_neg hcc, hm]
    exact invfa_congr rfl rfl hinv
  | other =>
    simp only [handle_key, if_neg hcc, hm]
    exact invfa_congr rfl rfl hinv

theorem invfa_handle_key (ext : Ext) (token : String) (app : BrowserApp)
    (key : KeyEvent) (hinv : InvFA app) : InvFA (handle_key ext token app key) := by
  obtain ⟨code, ctrl⟩ := key
  by_cases hcc : ctrl = true ∧ code = KeyCode.char 'c'
  · have heq : handle_key ext token app ⟨code, ctrl⟩
        = { app with app_state := .quitting } := by
      rw [handle_key, if_pos hcc]
    rw [heq]
    exact invfa_congr rfl rfl hinv
  · rcases hm : app.modal with _ | _ | ⟨fid0, fn0⟩ | ⟨fid0, fn0, ft0, sel0⟩ | q | q
      | msg | msg
    · have heq : handle_key ext token app ⟨code, ctrl⟩
          = handle_key_browsing app ⟨code, ctrl⟩ := by
        simp only [handle_key, if_neg hcc, hm]
      rw [heq]
      exact invfa_browsing app ⟨code, ctrl⟩ hm hinv
    · have heq : handle_key ext token app ⟨code, ctrl⟩ = app := by
        simp only [handle_key, if_neg hcc, hm]
      rw [heq]
      exact hinv
    · exact invfa_hk_confirm ext token app fid0 fn0 code ctrl hcc hm hinv
    · exact invfa_hk_fa ext token app fid0 fn0 ft0 sel0 code ctrl hcc hm hinv
    · exact invfa_hk_find ext token app q code ctrl hcc hm hinv
    · exact invfa_hk_search ext token app q code ctrl hcc hm hinv
    · have heq : handle_key ext token app ⟨code, ctrl⟩ = { app with modal := .none } := by
        simp only [handle_key, if_neg hcc, hm]
      rw [heq]
      exact invfa_of_modal_ne (fun f2 n2 t2 s2 => by simp)
    · have heq : handle_key ext token app ⟨code, ctrl⟩ = { app with modal := .none } := by
        simp only [handle_key, if_neg hcc, hm]
      rw [heq]
      exact invfa_of_modal_ne (fun f2 n2 t2 s2 => by simp)


/-- C9: every per-kind action list has at least 4 entries, and the FileActions
invariant — the modal's selected index is within the action list computed from
the file's kind and the current search flag — is preserved by `handle_key` for
every key in every state, so the Enter handler's `actions[selected]` indexing is
always in bounds (up/down wrap modulo the list length). -/
theorem claim_c9_file_actions_in_bounds :
    (∀ (ftype : String) (flag : Bool), 4 ≤ (file_actions_for ftype flag).length)
    ∧ ∀ (ext : Ext) (token : String) (app : BrowserApp) (key : KeyEvent),
        InvFA app → InvFA (handle_key ext token app key) :=
  ⟨file_actions_for_length,
    fun ext token app key hinv => invfa_handle_key ext token app key hinv⟩

/-- C9, witness: the fixture satisfies the invariant and still does after a Down
key wraps the selection. -/
theorem claim_c9_witness :
    InvFA c9App ∧ InvFA (handle_key exExt "tok" c9App ⟨.down, false⟩) :=
  ⟨by
    intro fid fn ft sel hmod
    injection hmod with e1 e2 e3 e4
    subst e3
    subst e4
    decide,
    claim_c9_file_actions_in_bounds.2 exExt "tok" c9App ⟨.down, false⟩ (by
    intro fid fn ft sel hmod
    injection hmod with e1 e2 e3 e4
    subst e3
    subst e4
    decide)⟩

/-! ## Claim C8 -/

theorem chain_zero (env : Int → Except String Folder) (pid : Int) :
    chain env pid 0 = some pid := rfl

theorem chain_succ_front (env : Int → Except String Folder) {pid : Int} {f : Folder}
    (hok : env pid = .ok f) : ∀ i : Nat, chain env pid (i + 1) = chain env f.parent_id i := by
  intro i
  induction i with
  | zero => simp [chain, pstep, hok]
  | succ i ih =>
    show (chain env pid (i + 1)).bind (pstep env) = chain env f.parent_id (i + 1)
    rw [ih]
    rfl

theorem cleanAt_succ (env : Int → Except String Folder) {pid : Int} {f : Folder}
    (hok : env pid = .ok f) (i : Nat) :
    CleanAt env pid (i + 1) ↔ CleanAt env f.parent_id i := by
  rw [CleanAt, CleanAt, chain_succ_front env hok i]

theorem chainName_succ (env : Int → Except String Folder) {pid : Int} {f : Folder}
    (hok : env pid = .ok f) (i : Nat) :
    chainName env pid (i + 1) = chainName env f.parent_id i := by
  rw [chainName, chainName, chain_succ_front env hok i]

theorem chainName_zero (env : Int → Except String Folder) {pid : Int} {f : Folder}
    (hok : env pid = .ok f) : chainName env pid 0 = f.name := by
  rw [chainName]
  simp [chain, hok]

theorem cleanAt_zero_not_zero {env : Int → Except String Folder} {pid : Int}
    (h : CleanAt env pid 0) : pid ≠ 0 := by
  obtain ⟨pid2, f, hc, hne, _⟩ := h
  rw [chain_zero] at hc
  cases hc
  exact hne

theorem bpGo_ok_iff (env : Int → Except String Folder) : ∀ (gas : Nat) (pid : Int)
    (parts : List String),
    bpGo env gas pid = .ok parts ↔
      ∃ m, m ≤ gas ∧ chain env pid m = some 0 ∧ (∀ i, i < m → CleanAt env pid i)
        ∧ parts = (List.range m).map (chainName env pid) := by
  intro gas
  induction gas with
  | zero =>
    intro pid parts
    by_cases hp : pid = 0
    · subst hp
      rw [bpGo]
      simp only [if_pos rfl]
      constructor
      · intro hok
        refine ⟨0, le_rfl, rfl, by omega, ?_⟩
        cases hok
        rfl
      · rintro ⟨m, hm, hc, hcl, hparts⟩
        interval_cases m
        · subst hparts
          rfl
    · rw [bpGo]
      rw [if_neg hp]
      constructor
      · intro hok
        exact Except.noConfusion hok
      · rintro ⟨m, hm, hc, hcl, hparts⟩
        interval_cases m
        rw [chain_zero] at hc
        cases hc
        exact absurd rfl hp
  | succ g ih =>
    intro pid parts
    by_cases hp : pid = 0
    · subst hp
      rw [bpGo]
      simp only [if_pos rfl]
      constructor
      · intro hok
        refine ⟨0, by omega, rfl, by omega, ?_⟩
        cases hok
        rfl
      · rintro ⟨m, hm, hc, hcl, hparts⟩
        rcases m with _ | m'
        · subst hparts
          rfl
        · have := cleanAt_zero_not_zero (hcl 0 (by omega))
          exact absurd rfl this
    · rw [bpGo, if_neg hp]
      rcases hok : env pid with e | f
      all_goals simp only []
      · constructor
        · intro hc
          exact Except.noConfusion hc
        · rintro ⟨m, hm, hc, hcl, hparts⟩
          rcases m with _ | m'
          · rw [chain_zero] at hc
            cases hc
            exact absurd rfl hp
          · obtain ⟨pid2, f2, hc2, hne2, hok2, _⟩ := hcl 0 (by omega)
            rw [chain_zero] at hc2
            cases hc2
            rw [hok] at hok2
            exact Except.noConfusion hok2
      · by_cases hname : f.name = ""
        · rw [if_pos hname]
          constructor
          · intro hc
            exact Except.noConfusion hc
          · rintro ⟨m, hm, hc, hcl, hparts⟩
            rcases m with _ | m'
            · rw [chain_zero] at hc
              cases hc
              exact absurd rfl hp
            · obtain ⟨pid2, f2, hc2, hne2, hok2, hname2, _⟩ := hcl 0 (by omega)
              rw [chain_zero] at hc2
              cases hc2
              rw [hok] at hok2
              cases hok2
              exact absurd hname hname2
        · rw [if_neg hname]
          by_cases hself : f.parent_id = pid
          · rw [if_pos hself]
            constructor
            · intro hc
              exact Except.noConfusion hc
            · rintro ⟨m, hm, hc, hcl, hparts⟩
              rcases m with _ | m'
              · rw [chain_zero] at hc
                cases hc
                exact absurd rfl hp
              · obtain ⟨pid2, f2, hc2, hne2, hok2, hname2, hself2⟩ := hcl 0 (by omega)
                rw [chain_zero] at hc2
                cases hc2
                rw [hok] at hok2
                cases hok2
                exact absurd hself hself2
          · rw [if_neg hself]
            constructor
            · intro hc
              rcases hrest : bpGo env g f.parent_id with e | rest
              · rw [hrest] at hc
                exact Except.noConfusion hc
              · rw [hrest] at hc
                have hc2 : parts = f.name :: rest := by
                  cases hc
                  rfl
                obtain ⟨m', hm', hcm', hcl', hparts'⟩ := (ih f.parent_id rest).mp hrest
                refine ⟨m' + 1, by omega, ?_, ?_, ?_⟩
                · rw [chain_succ_front env hok]
                  exact hcm'
                · intro i hi
                  rcases i with _ | i'
                  · exact ⟨pid, f, rfl, hp, hok, hname, hself⟩
                  · rw [cleanAt_succ env hok]
                    exact hcl' i' (by omega)
                · rw [hc2, hparts', List.range_succ_eq_map]
                  simp only [List.map_cons, List.map_map]
                  congr 1
                  · exact (chainName_zero env hok).symm
                  · apply List.map_congr_left
                    intro i _
                    show chainName env f.parent_id i = chainName env pid (i + 1)
                    rw [chainName_succ env hok]
            · rintro ⟨m, hm, hc, hcl, hparts⟩
              rcases m with _ | m'
              · rw [chain_zero] at hc
                cases hc
                exact absurd rfl hp
              · have hrest' : bpGo env g f.parent_id
                    = .ok ((List.range m').map (chainName env f.parent_id)) := by
                  rw [ih]
                  refine ⟨m', by omega, ?_, ?_, rfl⟩
                  · rw [← chain_succ_front env hok]
                    exact hc
                  · intro i hi
                    rw [← cleanAt_succ env hok]
                    exact hcl (i + 1) (by omega)
                rw [hrest']
                rw [hparts, List.range_succ_eq_map]
                simp only [List.map_cons, List.map_map]
                congr 2
                · exact (chainName_zero env hok).symm
                · apply List.map_congr_left
                  intro i _
                  exact (chainName_succ env hok i).symm


theorem bpGo_error_prefix (env : Int → Except String Folder) : ∀ (gas : Nat) (pid : Int)
    (e : String), bpGo env gas pid = .error e → ∃ s, e = "Path lookup failed: " ++ s := by
  intro gas
  induction gas with
  | zero =>
    intro pid e h
    by_cases hp : pid = 0
    · subst hp
      rw [bpGo, if_pos rfl] at h
      exact Except.noConfusion h
    · rw [bpGo, if_neg hp] at h
      injection h with he
      refine ⟨"path too deep.", ?_⟩
      rw [← he]
      rfl
  | succ g ih =>
    intro pid e h
    by_cases hp : pid = 0
    · subst hp
      rw [bpGo, if_pos rfl] at h
      exact Except.noConfusion h
    · rw [bpGo, if_neg hp] at h
      rcases hok : env pid with e2 | f
      · rw [hok] at h
        simp only [] at h
        injection h with he
        exact ⟨e2, he.symm⟩
      · rw [hok] at h
        simp only [] at h
        by_cases hname : f.name = ""
        · rw [if_pos hname] at h
          injection h with he
          refine ⟨"missing folder name.", ?_⟩
          rw [← he]
          rfl
        · rw [if_neg hname] at h
          by_cases hself : f.parent_id = pid
          · rw [if_pos hself] at h
            injection h with he
            refine ⟨"parent loop detected.", ?_⟩
            rw [← he]
            rfl
          · rw [if_neg hself] at h
            rcases hb : bpGo env g f.parent_id with e3 | rest
            · rw [hb] at h
              injection h with he
              obtain ⟨s, hs⟩ := ih f.parent_id e3 hb
              exact ⟨s, he ▸ hs⟩
            · rw [hb] at h
              exact Except.noConfusion h

/-- C8 (amended): `build_path_parts` always terminates; it returns the folder
names collected along the parent chain ordered from root downward exactly when
the starting id is non-negative and the chain reaches the root (id 0) within 256
hops with every hop clean — the `list` call succeeding with a non-empty folder
name that is not its own parent; it errors otherwise, including when a remote
`list` call itself fails (a fifth error source the claim omits), and every error
is a path-lookup error ("Path lookup failed: ..."). -/
theorem claim_c8_build_path_parts (env : Int → Except String Folder) (start : Int) :
    ((∃ parts, build_path_parts env start = .ok parts) ↔
      0 ≤ start ∧ ∃ m, m ≤ 256 ∧ chain env start m = some 0
        ∧ ∀ i, i < m → CleanAt env start i)
    ∧ (∀ parts, build_path_parts env start = .ok parts →
        ∃ m, m ≤ 256 ∧ chain env start m = some 0 ∧ (∀ i, i < m → CleanAt env start i)
          ∧ parts = ((List.range m).map (chainName env start)).reverse)
    ∧ (∀ e, build_path_parts env start = .error e →
        ∃ s, e = "Path lookup failed: " ++ s) := by
  refine ⟨?_, ?_, ?_⟩
  · by_cases hneg : start < 0
    · rw [build_path_parts, if_pos hneg]
      constructor
      · rintro ⟨parts, h⟩
        exact Except.noConfusion h
      · rintro ⟨h0, _⟩
        omega
    · rw [build_path_parts, if_neg hneg]
      constructor
      · rintro ⟨parts, h⟩
        rcases hb : bpGo env 256 start with e | p
        · rw [hb] at h
          exact Except.noConfusion h
        · obtain ⟨m, hm, hc, hcl, _⟩ := (bpGo_ok_iff env 256 start p).mp hb
          exact ⟨by omega, m, hm, hc, hcl⟩
      · rintro ⟨h0, m, hm, hc, hcl⟩
        have hb : bpGo env 256 start = .ok ((List.range m).map (chainName env start)) :=
          (bpGo_ok_iff env 256 start _).mpr ⟨m, hm, hc, hcl, rfl⟩
        rw [hb]
        exact ⟨_, rfl⟩
  · intro parts h
    by_cases hneg : start < 0
    · rw [build_path_parts, if_pos hneg] at h
      exact Except.noConfusion h
    · rw [build_path_parts, if_neg hneg] at h
      rcases hb : bpGo env 256 start with e | p
      · rw [hb] at h
        exact Except.noConfusion h
      · rw [hb] at h
        obtain ⟨m, hm, hc, hcl, hparts⟩ := (bpGo_ok_iff env 256 start p).mp hb
        have hpr : parts = p.reverse := by
          cases h
          rfl
        refine ⟨m, hm, hc, hcl, ?_⟩
        rw [hpr, hparts]
  · intro e h
    by_cases hneg : start < 0
    · rw [build_path_parts, if_pos hneg] at h
      injection h with he
      refine ⟨"invalid parent id.", ?_⟩
      rw [← he]
      rfl
    · rw [build_path_parts, if_neg hneg] at h
      rcases hb : bpGo env 256 start with e2 | p
      · rw [hb] at h
        injection h with he
        obtain ⟨s, hs⟩ := bpGo_error_prefix env 256 start e2 hb
        exact ⟨s, he ▸ hs⟩
      · rw [hb] at h
        exact Except.noConfusion h

/-- C8, counterexample to the claim as stated: with a store whose `list` calls
all fail, copy-path resolution from parent id 5 errors even though the start id
is non-negative, no folder was ever fetched (so no empty name and no
self-parent), and the walk died at the first hop rather than exceeding 256. -/
theorem claim_c8_counterexample :
    build_path_parts c8EnvFail 5 = .error "Path lookup failed: boom"
    ∧ ¬ (5 : Int) < 0
    ∧ (∀ (pid : Int) (f : Folder), c8EnvFail pid ≠ .ok f)
    ∧ chain c8EnvFail 5 1 = Option.none := by
  refine ⟨rfl, by decide, fun pid f h => Except.noConfusion h, rfl⟩

/-- C8, witness: on the two-level fixture the resolution succeeds and the names
come back root-downward. -/
theorem claim_c8_witness :
    ∃ m, m ≤ 256 ∧ chain c8Env 5 m = some 0 ∧ (∀ i, i < m → CleanAt c8Env 5 i)
      ∧ ["media", "docs"] = ((List.range m).map (chainName c8Env 5)).reverse :=
  (claim_c8_build_path_parts c8Env 5).2.1 ["media", "docs"] rfl


end Kaput
